import Mathlib

/-!
Formal model of the vimView catalog / mutation / undo engine and of the
thumbnail pipeline, embedded from `widgets/image_viewer.py` and
`workers/thumbnail_worker.py`.

Conventions of the embedding:
* a file path is split into the containing directory and the file name,
  mirroring how the code only ever builds paths as `parent / name`;
* the filesystem is the list of currently existing file paths;
* Python exceptions that the code catches are modelled as explicit outcome
  codes, with the state reflecting exactly the mutations performed before the
  raise;
* the undo stack is kept most-recent-first (Python appends at the end of
  `undo_stack` and pops the end; the head of our list is Python's last slot).
-/

/-- A filesystem path, split as containing directory and file name. -/
structure PPath where
  dir : String
  name : String
deriving DecidableEq, Repr

/-- Index of the last `'.'` in a character list, if any. -/
def lastDotIdx : List Char → Option Nat
  | [] => none
  | c :: cs =>
    match lastDotIdx cs with
    | some i => some (i + 1)
    | none => if c = '.' then some 0 else none

/-- Python `pathlib.PurePath.suffix` on a file name: the final extension,
empty when the last dot is the first character (hidden name) or the last one. -/
def pySuffix (name : String) : String :=
  match lastDotIdx name.data with
  | some i => if 0 < i ∧ i < name.data.length - 1 then String.mk (name.data.drop i) else ""
  | none => ""

/-- Python `pathlib.PurePath.stem` on a file name: the name minus its suffix. -/
def pyStem (name : String) : String :=
  String.mk (name.data.take (name.data.length - (pySuffix name).data.length))

/-- ASCII lower-casing of a string, as used on file extensions and search
queries (`.lower()`); character-wise `Char.toLower`. -/
def lowerStr (s : String) : String :=
  String.mk (s.data.map Char.toLower)

/-- Python `name.startswith(".")`. -/
def hiddenName (name : String) : Bool :=
  name.data.head? == some '.'

/-- Decimal digit characters of `n`, most significant first, computed with
structural fuel (`fuel ≥ n` suffices). -/
def decDigits : Nat → Nat → List Char
  | 0, _ => []
  | fuel + 1, n =>
    if n = 0 then [] else decDigits fuel (n / 10) ++ [Nat.digitChar (n % 10)]

/-- Decimal digit string of `n`, as Python `f-string` interpolation prints it
(the code only interpolates counters `n ≥ 1`). -/
def natToStr (n : Nat) : String :=
  if n = 0 then "0" else String.mk (decDigits n n)

/-- Lexicographic comparison of character lists by code point, the order
Python uses on strings (and `sorted` uses on same-directory paths). -/
def strLeAux : List Char → List Char → Bool
  | [], _ => true
  | _ :: _, [] => false
  | a :: as, b :: bs =>
    if a.toNat < b.toNat then true
    else if b.toNat < a.toNat then false
    else strLeAux as bs

/-- Lexicographic string comparison by code point. -/
def strLe (a b : String) : Bool :=
  strLeAux a.data b.data

/-- Insert into a sorted list, keeping earlier elements first on ties. -/
def ordInsert (x : String) : List String → List String
  | [] => [x]
  | y :: ys => if strLe x y then x :: y :: ys else y :: ordInsert x ys

/-- Stable insertion sort by `strLe`, the model of Python `sorted`. -/
def sortStrs : List String → List String
  | [] => []
  | x :: xs => ordInsert x (sortStrs xs)

/-- The collision-avoiding candidate name `f"{stem}_{counter}{suffix}"`. -/
def candName (stem ext : String) (n : Nat) : String :=
  stem ++ "_" ++ natToStr n ++ ext

/-- The filesystem: the list of files that currently exist. -/
abbrev Fs := List PPath

/-- `Path.exists()`. -/
def fsHas (fs : Fs) (p : PPath) : Bool :=
  fs.contains p

/-- `Path.rename` / `shutil.move` for a file on one filesystem: fails (raises)
iff the source does not exist, silently replacing any existing destination. -/
def fsMove (fs : Fs) (src dst : PPath) : Option Fs :=
  if fsHas fs src then some (dst :: fs.filter (fun p => p != src && p != dst))
  else none

/-- Two filesystems holding exactly the same files. -/
def SameFs (fs1 fs2 : Fs) : Prop :=
  ∀ p, p ∈ fs1 ↔ p ∈ fs2

/-! ### Directory loading (`load_directory`, `_get_images`) -/

/-- Kind of a directory entry returned by `iterdir`. -/
inductive EntryKind
  | file
  | subdir
deriving DecidableEq, Repr

/-- One entry of the loaded directory's listing. -/
structure Entry where
  name : String
  kind : EntryKind
deriving DecidableEq, Repr

/-- What a path on disk resolves to. -/
inductive PathKind
  | missing
  | plainFile
  | dirPath
deriving DecidableEq, Repr

/-- The error taxonomy of filesystem calls made during a load. -/
inductive IoError
  | notFound
  | notADirectory
  | alreadyExists
deriving DecidableEq, Repr

/-- The parts of the world `load_directory` touches: the kind of the path being
loaded, its listing, and the kind of `directory / ".vimview_trash"`. -/
structure LoadWorld where
  dirKind : PathKind
  entries : List Entry
  trashKind : PathKind
deriving Repr

/-- Python `(directory / ".vimview_trash").mkdir(exist_ok=True)`: raises
FileNotFoundError when the parent is missing, NotADirectoryError when the
parent is a plain file, FileExistsError when the trash path is a plain file. -/
def mkdirTrash (w : LoadWorld) : Except IoError Unit :=
  match w.dirKind with
  | .missing => .error .notFound
  | .plainFile => .error .notADirectory
  | .dirPath =>
    match w.trashKind with
    | .plainFile => .error .alreadyExists
    | _ => .ok ()

/-- The supported extension set of `_get_images` (already lower-case). -/
def supportedExts : List String :=
  [".png", ".jpg", ".jpeg", ".bmp", ".gif", ".webp"]

/-- The filter of `_get_images`: supported extension, compared after
lower-casing, and not a hidden dotfile. The code never checks that the entry
is a regular file. -/
def imageEntry (e : Entry) : Bool :=
  supportedExts.contains (lowerStr (pySuffix e.name)) && !(hiddenName e.name)

/-- `_get_images`: the matching entries of the listing, sorted (paths sharing
the directory sort exactly as their names do). -/
def get_images (entries : List Entry) : List String :=
  sortStrs ((entries.filter imageEntry).map Entry.name)

/-- The catalog fields produced by a successful load. -/
structure LoadedCatalog where
  all_image_files : List String
  image_files : List String
  current_index : Nat
deriving DecidableEq, Repr

instance {ε α : Type} [DecidableEq ε] [DecidableEq α] : DecidableEq (Except ε α) :=
  fun a b =>
    match a, b with
    | .ok x, .ok y => decidable_of_iff (x = y) (by simp)
    | .error e, .error f => decidable_of_iff (e = f) (by simp)
    | .ok _, .error _ => isFalse (by simp)
    | .error _, .ok _ => isFalse (by simp)

/-- `load_directory`: ensures the trash area (surfacing the IoError of a
missing or non-directory path), scans, sets the view to the full list and
clamps the initial index. -/
def load_directory (w : LoadWorld) (initial_index : Nat) : Except IoError LoadedCatalog :=
  match mkdirTrash w with
  | .error e => .error e
  | .ok _ =>
    let alls := get_images w.entries
    let ci := if alls.isEmpty then 0 else min initial_index (alls.length - 1)
    .ok ⟨alls, alls, ci⟩

/-! ### Viewer state and operations -/

/-- Tag of an undo entry. -/
inductive UndoAction
  | rename_inplace
  | move
  | delete
deriving DecidableEq, Repr

/-- One record of the undo stack; for `delete` entries the `new_path` field
holds the trash path. -/
structure UndoEntry where
  action : UndoAction
  old_path : PPath
  new_path : PPath
  index : Nat
deriving DecidableEq, Repr

/-- The mutable viewer state relevant to the catalog, filter, undo and
filesystem behaviour. -/
structure ViewerState where
  all_image_files : List PPath
  image_files : List PPath
  current_index : Nat
  undo_stack : List UndoEntry
  is_search_filtered : Bool
  pre_search_path : Option PPath
  trash_dir : String
  fs : Fs
deriving DecidableEq, Repr

/-- Outcome of an operation, including the Python exceptions the code catches. -/
inductive OpOutcome
  | ok
  | alreadyExists
  | fsError
  | indexError
  | noHistory
  | noMatches
deriving DecidableEq, Repr

/-- The state-relevant part of `_update_image`: clamps the cursor into a
non-empty view; returns early, touching nothing, on an empty view. -/
def update_image (s : ViewerState) : ViewerState :=
  if s.image_files.isEmpty then s
  else { s with current_index := min s.current_index (s.image_files.length - 1) }

/-- Python `list.index`: position of the first occurrence (the code only calls
it after a membership test; absent elements map to 0 here). -/
def pyIndex : List PPath → PPath → Nat
  | [], _ => 0
  | y :: ys, x => if y = x then 0 else pyIndex ys x + 1

/-- Python `l[l.index(old)] = new`, guarded by `old in l`: substitute the first
occurrence in place. -/
def replaceFirst : List PPath → PPath → PPath → List PPath
  | [], _, _ => []
  | x :: xs, o, n => if x = o then n :: xs else x :: replaceFirst xs o n

/-- The image under the cursor, if any. -/
def currentImage (s : ViewerState) : Option PPath :=
  s.image_files[s.current_index]?

/-- Cursor–view consistency: 0 on an empty view, in range otherwise. -/
def cursorInv (s : ViewerState) : Prop :=
  (s.image_files = [] ∧ s.current_index = 0) ∨ s.current_index < s.image_files.length

instance (s : ViewerState) : Decidable (cursorInv s) := by
  unfold cursorInv; infer_instance

/-- `keymap["prev"]`: `current_index = max(0, current_index - 1)` then
`_update_image`; gated on a non-empty view. -/
def nav_prev (s : ViewerState) : ViewerState :=
  if s.image_files.isEmpty then s
  else update_image { s with current_index := s.current_index - 1 }

/-- `keymap["next"]`: `current_index = min(len - 1, current_index + 1)` then
`_update_image`; gated on a non-empty view. -/
def nav_next (s : ViewerState) : ViewerState :=
  if s.image_files.isEmpty then s
  else update_image { s with current_index := min (s.image_files.length - 1) (s.current_index + 1) }

/-- `_open_text_input(SEARCH)`: records the pre-search path only when not
already filtered and the view is non-empty. -/
def open_search (s : ViewerState) : ViewerState :=
  if !s.is_search_filtered && !s.image_files.isEmpty then
    { s with pre_search_path := s.image_files[s.current_index]? }
  else s

/-- `_clear_search_filter`: no-op when not filtered; otherwise restore the full
list and put the cursor back on the recorded pre-search path when it is still
present, else at 0. -/
def clear_search_filter (s : ViewerState) : ViewerState :=
  if !s.is_search_filtered then s
  else
    let view := s.all_image_files
    match s.pre_search_path with
    | some p =>
      if p ∈ view then
        update_image { s with image_files := view, is_search_filtered := false,
                              current_index := pyIndex view p, pre_search_path := none }
      else
        update_image { s with image_files := view, is_search_filtered := false,
                              current_index := 0 }
    | none =>
      update_image { s with image_files := view, is_search_filtered := false,
                            current_index := 0 }

/-- The live-search match rule: case-insensitive substring of the file name. -/
def nameMatches (q : String) (p : PPath) : Bool :=
  decide ((lowerStr q).data <:+: (lowerStr p.name).data)

/-- `_process_text_input` in SEARCH mode with no suggestion selected: an empty
query clears the filter; a query without matches changes nothing; otherwise the
view becomes the matching subsequence of the catalog, cursor 0. -/
def apply_filter (s : ViewerState) (text : String) : ViewerState × OpOutcome :=
  if text = "" then (clear_search_filter s, .ok)
  else
    let hits := s.all_image_files.filter (nameMatches text)
    if hits.isEmpty then (s, .noMatches)
    else
      (update_image { s with image_files := hits, is_search_filtered := true,
                             current_index := 0 }, .ok)

/-- Second half of `_jump_to_image`: move the cursor to the target when it is
present in the (possibly just unfiltered) view. -/
def jump_stage2 (s1 : ViewerState) (target : PPath) : ViewerState :=
  if target ∈ s1.image_files then
    update_image { s1 with current_index := pyIndex s1.image_files target }
  else s1

/-- `_jump_to_image`: drop any filter (rebuilding clamps the cursor), then move
the cursor to the target when present. -/
def jump_to_image (s : ViewerState) (target : PPath) : ViewerState :=
  jump_stage2
    (if s.is_search_filtered then
      update_image { s with image_files := s.all_image_files, is_search_filtered := false }
    else s)
    target

/-- The effective rename target name: when the typed name has no extension the
current file's extension is appended. -/
def renamedName (new_name : String) (img : PPath) : String :=
  if pySuffix new_name = "" then new_name ++ pySuffix img.name else new_name

/-- `_rename_current_file`: appends the current extension when the new name has
none, refuses an existing target, renames on disk, substitutes the new path in
place in both lists and pushes a rename_inplace entry. -/
def rename_current_file (s : ViewerState) (new_name : String) : ViewerState × OpOutcome :=
  match s.image_files[s.current_index]? with
  | none => (s, .indexError)
  | some img =>
    let newp : PPath := ⟨img.dir, renamedName new_name img⟩
    if fsHas s.fs newp then (s, .alreadyExists)
    else
      match fsMove s.fs img newp with
      | none => (s, .fsError)
      | some fs1 =>
        (update_image { s with
            fs := fs1,
            image_files := s.image_files.set s.current_index newp,
            all_image_files := replaceFirst s.all_image_files img newp,
            undo_stack := ⟨.rename_inplace, img, newp, s.current_index⟩ :: s.undo_stack },
         .ok)

/-- The collision loop body, fuelled: try `stem_<k><ext>`, `stem_<k+1><ext>`,
... until a free name is found or the fuel runs out. -/
def collisionLoop (fs : Fs) (dir stem ext : String) : Nat → Nat → PPath
  | 0, k => ⟨dir, candName stem ext k⟩
  | fuel + 1, k =>
    let c : PPath := ⟨dir, candName stem ext k⟩
    if fsHas fs c then collisionLoop fs dir stem ext fuel (k + 1) else c

/-- The `while new_path.exists()` loop of `_move_to_target` and
`_delete_current`: the plain name when free, else the first free
`stem_<n><ext>` with n = 1, 2, .... The Python loop is unbounded;
`fs.length + 1` attempts provably suffice. -/
def resolveCollision (fs : Fs) (dir name : String) : PPath :=
  if fsHas fs ⟨dir, name⟩ then
    collisionLoop fs dir (pyStem name) (pySuffix name) (fs.length + 1) 1
  else ⟨dir, name⟩

/-- `_remove_item_from_view`: pop the view at `index`, remove the popped path
from the catalog (first occurrence), then `_update_image`. -/
def remove_item_from_view (s : ViewerState) (index : Nat) : ViewerState :=
  match s.image_files[index]? with
  | none => s
  | some img =>
    update_image { s with
      image_files := s.image_files.eraseIdx index,
      all_image_files := s.all_image_files.erase img }

/-- `_move_to_target`: collision-resolved destination, filesystem move, push a
move entry, drop the item from the view. -/
def move_to_target (s : ViewerState) (target_folder : String) : ViewerState × OpOutcome :=
  match s.image_files[s.current_index]? with
  | none => (s, .indexError)
  | some img =>
    let newp := resolveCollision s.fs target_folder img.name
    match fsMove s.fs img newp with
    | none => (s, .fsError)
    | some fs1 =>
      (remove_item_from_view { s with
          fs := fs1,
          undo_stack := ⟨.move, img, newp, s.current_index⟩ :: s.undo_stack }
        s.current_index, .ok)

/-- `_delete_current`: like a move, with the trash area as the target. -/
def delete_current (s : ViewerState) : ViewerState × OpOutcome :=
  match s.image_files[s.current_index]? with
  | none => (s, .indexError)
  | some img =>
    let trashp := resolveCollision s.fs s.trash_dir img.name
    match fsMove s.fs img trashp with
    | none => (s, .fsError)
    | some fs1 =>
      (remove_item_from_view { s with
          fs := fs1,
          undo_stack := ⟨.delete, img, trashp, s.current_index⟩ :: s.undo_stack }
        s.current_index, .ok)

/-- `_undo_last_action`. The entry is popped before the try block, so a
filesystem failure (fsError) leaves the entry consumed. The rename branch
assigns `image_files[index] = old` without validating the index: out of range
this raises IndexError after the filesystem rename already happened
(indexError outcome, lists untouched). The move and delete branches re-insert
into the view with Python's clamping `insert`, append the restored path to the
catalog only when absent, set the cursor to the recorded index and clamp it. -/
def undo_last_action (s : ViewerState) : ViewerState × OpOutcome :=
  match s.undo_stack with
  | [] => (s, .noHistory)
  | entry :: rest =>
    let s0 := { s with undo_stack := rest }
    match entry.action with
    | .rename_inplace =>
      match fsMove s0.fs entry.new_path entry.old_path with
      | none => (s0, .fsError)
      | some fs1 =>
        if entry.index < s0.image_files.length then
          (update_image { s0 with
              fs := fs1,
              image_files := s0.image_files.set entry.index entry.old_path,
              all_image_files := replaceFirst s0.all_image_files entry.new_path entry.old_path },
           .ok)
        else ({ s0 with fs := fs1 }, .indexError)
    | _ =>
      match fsMove s0.fs entry.new_path entry.old_path with
      | none => (s0, .fsError)
      | some fs1 =>
        (update_image { s0 with
            fs := fs1,
            image_files :=
              s0.image_files.insertIdx (min entry.index s0.image_files.length) entry.old_path,
            all_image_files :=
              if entry.old_path ∈ s0.all_image_files then s0.all_image_files
              else s0.all_image_files ++ [entry.old_path],
            current_index := entry.index },
         .ok)

/-- The operations of the foreground control flow, as dispatched by
`keyPressEvent` and the text-input handler. -/
inductive Op
  | prev
  | next
  | openSearch
  | search (q : String)
  | jump (t : PPath)
  | rename (n : String)
  | move (target : String)
  | delete
  | undo
deriving Repr

/-- One foreground step (outcome codes projected away). -/
def step (s : ViewerState) : Op → ViewerState
  | .prev => nav_prev s
  | .next => nav_next s
  | .openSearch => open_search s
  | .search q => (apply_filter s q).1
  | .jump t => jump_to_image s t
  | .rename n => (rename_current_file s n).1
  | .move t => (move_to_target s t).1
  | .delete => (delete_current s).1
  | .undo => (undo_last_action s).1

/-- A search interaction: open the search input (recording the pre-search path
when applicable) and submit one query. -/
def searchRound (s : ViewerState) (q : String) : ViewerState :=
  (apply_filter (open_search s) q).1

/-- A whole sequence of search interactions. -/
def filterMany (s : ViewerState) (qs : List String) : ViewerState :=
  qs.foldl searchRound s

/-! ### Thumbnail pipeline (`ThumbnailWorker`, `_apply_thumbnail`,
`_rebuild_filmstrip_and_thumbnails`) -/

/-- The state shared between preview-ready events and the foreground: the key
set of `filmstrip_item_map` and the `thumb_cache` dictionary (pixmaps as ids). -/
structure ThumbState where
  item_map : List PPath
  thumb_cache : List (PPath × Nat)
deriving DecidableEq, Repr

/-- Python dict assignment `cache[p] = pix`: replace the entry when the key is
present, append otherwise. -/
def cacheSet (c : List (PPath × Nat)) (p : PPath) (pix : Nat) : List (PPath × Nat) :=
  if c.any (fun kv => kv.1 == p) then
    c.map (fun kv => if kv.1 == p then (p, pix) else kv)
  else c ++ [(p, pix)]

/-- `_apply_thumbnail`: a preview-ready event lands only when its path is still
a key of the filmstrip map; otherwise the event is dropped entirely. -/
def apply_thumbnail (t : ThumbState) (p : PPath) (pix : Nat) : ThumbState :=
  if p ∈ t.item_map then { t with thumb_cache := cacheSet t.thumb_cache p pix }
  else t

/-- `ThumbnailWorker.run` with the stop flag raised after `k` items: the worker
emits, in order, the successfully decoded among the first `k` paths of its
snapshot, and nothing else. -/
def worker_emits (snapshot : List PPath) (k : Nat) (decodeOk : PPath → Bool) : List PPath :=
  (snapshot.take k).filter decodeOk

/-- `_rebuild_filmstrip_and_thumbnails`: stop and join the previous worker,
re-key the filmstrip map by the current view (cache kept), and hand a snapshot
of the view to the new worker. The second component is the new worker's
snapshot; the old worker's undelivered queue is discarded by the join. -/
def rebuild_pipeline (view : List PPath) (t : ThumbState) : ThumbState × List PPath :=
  ({ item_map := view, thumb_cache := t.thumb_cache }, view)

/-- Deliver a list of preview-ready events to the foreground state. -/
def deliver_events (t : ThumbState) (evs : List (PPath × Nat)) : ThumbState :=
  evs.foldl (fun acc ev => apply_thumbnail acc ev.1 ev.2) t

/-- Targets of `_jump_to_image` come from the live suggestion list, whose
entries are always drawn from `all_image_files`. -/
def jumpTargetOk (s : ViewerState) : Op → Prop
  | .jump t => t ∈ s.all_image_files
  | _ => True

/-! ### Helper lemmas about `update_image` -/

theorem update_image_image_files (s : ViewerState) :
    (update_image s).image_files = s.image_files := by
  unfold update_image; split <;> rfl

theorem update_image_all (s : ViewerState) :
    (update_image s).all_image_files = s.all_image_files := by
  unfold update_image; split <;> rfl

theorem update_image_stack (s : ViewerState) :
    (update_image s).undo_stack = s.undo_stack := by
  unfold update_image; split <;> rfl

theorem update_image_fs (s : ViewerState) :
    (update_image s).fs = s.fs := by
  unfold update_image; split <;> rfl

theorem update_image_filtered (s : ViewerState) :
    (update_image s).is_search_filtered = s.is_search_filtered := by
  unfold update_image; split <;> rfl

theorem update_image_psp (s : ViewerState) :
    (update_image s).pre_search_path = s.pre_search_path := by
  unfold update_image; split <;> rfl

theorem update_image_of_empty (s : ViewerState) (h : s.image_files = []) :
    update_image s = s := by
  unfold update_image; rw [if_pos (by simp [h])]

theorem update_image_of_nonempty (s : ViewerState) (h : s.image_files ≠ []) :
    update_image s =
      { s with current_index := min s.current_index (s.image_files.length - 1) } := by
  unfold update_image; rw [if_neg (by simp [h])]

theorem cursorInv_update_image (s : ViewerState) (h : s.image_files ≠ []) :
    cursorInv (update_image s) := by
  rw [update_image_of_nonempty s h]
  right
  exact Nat.lt_of_le_of_lt (Nat.min_le_right _ _)
    (Nat.sub_lt (List.length_pos.mpr h) Nat.one_pos)

theorem update_image_ci_eq (st : ViewerState) (hne : st.image_files ≠ [])
    (hci : st.current_index < st.image_files.length) :
    (update_image st).current_index = st.current_index := by
  rw [update_image_of_nonempty st hne]
  show min st.current_index (st.image_files.length - 1) = st.current_index
  omega

theorem cursorInv_update_image_any (s : ViewerState)
    (h0 : s.image_files = [] → s.current_index = 0) :
    cursorInv (update_image s) := by
  rcases he : s.image_files with _ | ⟨q, l⟩
  · rw [update_image_of_empty _ he]
    exact Or.inl ⟨he, h0 he⟩
  · exact cursorInv_update_image _ (by simp [he])

/-! ### Branch equations for the operations -/

theorem clear_eq_of_not_filtered (s : ViewerState) (hf : s.is_search_filtered = false) :
    clear_search_filter s = s := by
  simp [clear_search_filter, hf]

theorem clear_eq_none (s : ViewerState) (hf : s.is_search_filtered = true)
    (hp : s.pre_search_path = none) :
    clear_search_filter s =
      update_image { s with image_files := s.all_image_files, is_search_filtered := false,
                            current_index := 0 } := by
  simp [clear_search_filter, hf, hp]

theorem clear_eq_mem (s : ViewerState) (p : PPath) (hf : s.is_search_filtered = true)
    (hp : s.pre_search_path = some p) (hm : p ∈ s.all_image_files) :
    clear_search_filter s =
      update_image { s with image_files := s.all_image_files, is_search_filtered := false,
                            current_index := pyIndex s.all_image_files p,
                            pre_search_path := none } := by
  simp [clear_search_filter, hf, hp, hm]

theorem clear_eq_not_mem (s : ViewerState) (p : PPath) (hf : s.is_search_filtered = true)
    (hp : s.pre_search_path = some p) (hm : p ∉ s.all_image_files) :
    clear_search_filter s =
      update_image { s with image_files := s.all_image_files, is_search_filtered := false,
                            current_index := 0 } := by
  simp [clear_search_filter, hf, hp, hm]

theorem apply_filter_eq_empty (s : ViewerState) :
    apply_filter s "" = (clear_search_filter s, .ok) := by
  simp [apply_filter]

theorem apply_filter_eq_noMatches (s : ViewerState) (text : String) (ht : text ≠ "")
    (hh : s.all_image_files.filter (nameMatches text) = []) :
    apply_filter s text = (s, .noMatches) := by
  simp [apply_filter, ht, hh]

theorem apply_filter_eq_hits (s : ViewerState) (text : String) (ht : text ≠ "")
    (hh : s.all_image_files.filter (nameMatches text) ≠ []) :
    apply_filter s text =
      (update_image { s with image_files := s.all_image_files.filter (nameMatches text),
                             is_search_filtered := true, current_index := 0 }, .ok) := by
  simp [apply_filter, ht, hh]

theorem rename_eq_exists (s : ViewerState) (n : String) (img : PPath)
    (hg : s.image_files[s.current_index]? = some img)
    (hex : fsHas s.fs ⟨img.dir, renamedName n img⟩ = true) :
    rename_current_file s n = (s, .alreadyExists) := by
  simp [rename_current_file, hg, hex]

theorem rename_eq_ok (s : ViewerState) (n : String) (img : PPath) (fs1 : Fs)
    (hg : s.image_files[s.current_index]? = some img)
    (hex : fsHas s.fs ⟨img.dir, renamedName n img⟩ = false)
    (hmv : fsMove s.fs img ⟨img.dir, renamedName n img⟩ = some fs1) :
    rename_current_file s n =
      (update_image { s with
          fs := fs1,
          image_files := s.image_files.set s.current_index ⟨img.dir, renamedName n img⟩,
          all_image_files := replaceFirst s.all_image_files img ⟨img.dir, renamedName n img⟩,
          undo_stack :=
            ⟨.rename_inplace, img, ⟨img.dir, renamedName n img⟩, s.current_index⟩
              :: s.undo_stack },
       .ok) := by
  simp [rename_current_file, hg, hex, hmv]

theorem move_eq_ok (s : ViewerState) (target : String) (img : PPath) (fs1 : Fs)
    (hg : s.image_files[s.current_index]? = some img)
    (hmv : fsMove s.fs img (resolveCollision s.fs target img.name) = some fs1) :
    move_to_target s target =
      (remove_item_from_view { s with
          fs := fs1,
          undo_stack :=
            ⟨.move, img, resolveCollision s.fs target img.name, s.current_index⟩
              :: s.undo_stack }
        s.current_index, .ok) := by
  simp [move_to_target, hg, hmv]

theorem delete_eq_ok (s : ViewerState) (img : PPath) (fs1 : Fs)
    (hg : s.image_files[s.current_index]? = some img)
    (hmv : fsMove s.fs img (resolveCollision s.fs s.trash_dir img.name) = some fs1) :
    delete_current s =
      (remove_item_from_view { s with
          fs := fs1,
          undo_stack :=
            ⟨.delete, img, resolveCollision s.fs s.trash_dir img.name, s.current_index⟩
              :: s.undo_stack }
        s.current_index, .ok) := by
  simp [delete_current, hg, hmv]

theorem remove_eq_some (s : ViewerState) (index : Nat) (img : PPath)
    (hg : s.image_files[index]? = some img) :
    remove_item_from_view s index =
      update_image { s with
        image_files := s.image_files.eraseIdx index,
        all_image_files := s.all_image_files.erase img } := by
  simp [remove_item_from_view, hg]

theorem undo_eq_noHistory (s : ViewerState) (hs : s.undo_stack = []) :
    undo_last_action s = (s, .noHistory) := by
  simp [undo_last_action, hs]

theorem undo_eq_rename_fsError (s : ViewerState) (e : UndoEntry) (rest : List UndoEntry)
    (hs : s.undo_stack = e :: rest) (ha : e.action = .rename_inplace)
    (hm : fsMove s.fs e.new_path e.old_path = none) :
    undo_last_action s = ({ s with undo_stack := rest }, .fsError) := by
  simp [undo_last_action, hs, ha, hm]

theorem undo_eq_rename_ok (s : ViewerState) (e : UndoEntry) (rest : List UndoEntry) (fs1 : Fs)
    (hs : s.undo_stack = e :: rest) (ha : e.action = .rename_inplace)
    (hm : fsMove s.fs e.new_path e.old_path = some fs1)
    (hidx : e.index < s.image_files.length) :
    undo_last_action s =
      (update_image { s with
          undo_stack := rest,
          fs := fs1,
          image_files := s.image_files.set e.index e.old_path,
          all_image_files := replaceFirst s.all_image_files e.new_path e.old_path },
       .ok) := by
  simp [undo_last_action, hs, ha, hm, hidx]

theorem undo_eq_rename_indexError (s : ViewerState) (e : UndoEntry) (rest : List UndoEntry)
    (fs1 : Fs) (hs : s.undo_stack = e :: rest) (ha : e.action = .rename_inplace)
    (hm : fsMove s.fs e.new_path e.old_path = some fs1)
    (hidx : ¬ e.index < s.image_files.length) :
    undo_last_action s = ({ s with undo_stack := rest, fs := fs1 }, .indexError) := by
  simp [undo_last_action, hs, ha, hm, hidx]

theorem undo_eq_restore_fsError (s : ViewerState) (e : UndoEntry) (rest : List UndoEntry)
    (hs : s.undo_stack = e :: rest) (ha : e.action = .move ∨ e.action = .delete)
    (hm : fsMove s.fs e.new_path e.old_path = none) :
    undo_last_action s = ({ s with undo_stack := rest }, .fsError) := by
  rcases ha with ha | ha <;> simp [undo_last_action, hs, ha, hm]

theorem undo_eq_restore_ok (s : ViewerState) (e : UndoEntry) (rest : List UndoEntry) (fs1 : Fs)
    (hs : s.undo_stack = e :: rest) (ha : e.action = .move ∨ e.action = .delete)
    (hm : fsMove s.fs e.new_path e.old_path = some fs1) :
    undo_last_action s =
      (update_image { s with
          undo_stack := rest,
          fs := fs1,
          image_files :=
            s.image_files.insertIdx (min e.index s.image_files.length) e.old_path,
          all_image_files :=
            if e.old_path ∈ s.all_image_files then s.all_image_files
            else s.all_image_files ++ [e.old_path],
          current_index := e.index },
       .ok) := by
  rcases ha with ha | ha <;> simp [undo_last_action, hs, ha, hm]

/-! ### Cursor invariant preservation, operation by operation -/

theorem cursorInv_nav_prev (s : ViewerState) (h : cursorInv s) : cursorInv (nav_prev s) := by
  unfold nav_prev
  split
  · exact h
  · next hne =>
    exact cursorInv_update_image _ (by simpa using hne)

theorem cursorInv_nav_next (s : ViewerState) (h : cursorInv s) : cursorInv (nav_next s) := by
  unfold nav_next
  split
  · exact h
  · next hne =>
    exact cursorInv_update_image _ (by simpa using hne)

theorem cursorInv_open_search (s : ViewerState) (h : cursorInv s) :
    cursorInv (open_search s) := by
  unfold open_search
  split
  · exact h
  · exact h

theorem cursorInv_clear_search_filter (s : ViewerState) (h : cursorInv s) :
    cursorInv (clear_search_filter s) := by
  cases hf : s.is_search_filtered
  · rw [clear_eq_of_not_filtered s hf]; exact h
  · rcases hp : s.pre_search_path with _ | p
    · rw [clear_eq_none s hf hp]
      exact cursorInv_update_image_any _ (fun _ => rfl)
    · by_cases hm : p ∈ s.all_image_files
      · rw [clear_eq_mem s p hf hp hm]
        refine cursorInv_update_image_any _ (fun he => ?_)
        simp only [] at he
        exact absurd hm (by rw [he]; simp)
      · rw [clear_eq_not_mem s p hf hp hm]
        exact cursorInv_update_image_any _ (fun _ => rfl)

theorem cursorInv_apply_filter (s : ViewerState) (text : String) (h : cursorInv s) :
    cursorInv (apply_filter s text).1 := by
  by_cases ht : text = ""
  · rw [ht, apply_filter_eq_empty]
    exact cursorInv_clear_search_filter s h
  · by_cases hh : s.all_image_files.filter (nameMatches text) = []
    · rw [apply_filter_eq_noMatches s text ht hh]; exact h
    · rw [apply_filter_eq_hits s text ht hh]
      exact cursorInv_update_image_any _ (fun _ => rfl)

theorem cursorInv_jump_stage2 (s1 : ViewerState) (t : PPath) (h : cursorInv s1) :
    cursorInv (jump_stage2 s1 t) := by
  unfold jump_stage2
  split
  · next hm =>
    exact cursorInv_update_image _ (by rintro hnil; rw [hnil] at hm; simp at hm)
  · exact h

theorem cursorInv_jump_to_image (s : ViewerState) (t : PPath)
    (h : cursorInv s) (ht : t ∈ s.all_image_files) :
    cursorInv (jump_to_image s t) := by
  have hall : s.all_image_files ≠ [] := by rintro hnil; rw [hnil] at ht; simp at ht
  unfold jump_to_image
  refine cursorInv_jump_stage2 _ t ?_
  split
  · exact cursorInv_update_image _ (by simpa using hall)
  · exact h

theorem cursorInv_rename (s : ViewerState) (n : String) (h : cursorInv s) :
    cursorInv (rename_current_file s n).1 := by
  rcases hg : s.image_files[s.current_index]? with _ | img
  · simp [rename_current_file, hg]; exact h
  · have hne : s.image_files ≠ [] := by
      rintro hnil; rw [hnil] at hg; simp at hg
    cases hex : fsHas s.fs ⟨img.dir, renamedName n img⟩
    · rcases hm : fsMove s.fs img ⟨img.dir, renamedName n img⟩ with _ | fs1
      · simp [rename_current_file, hg, hex, hm]; exact h
      · rw [rename_eq_ok s n img fs1 hg hex hm]
        exact cursorInv_update_image _ (by simpa using hne)
    · rw [rename_eq_exists s n img hg hex]; exact h

theorem cursorInv_remove_item (s : ViewerState) (index : Nat) (h : cursorInv s) :
    cursorInv (remove_item_from_view s index) := by
  rcases hg : s.image_files[index]? with _ | img
  · simp [remove_item_from_view, hg]; exact h
  · rw [remove_eq_some s index img hg]
    have hidx : index < s.image_files.length := (List.getElem?_eq_some.mp hg).1
    refine cursorInv_update_image_any _ (fun he => ?_)
    simp only [] at he ⊢
    have hlen : s.image_files.length = 1 := by
      have := List.length_eraseIdx s.image_files index
      rw [he, if_pos hidx] at this
      simp at this
      omega
    rcases h with ⟨hnil, _⟩ | hlt
    · rw [hnil] at hg; simp at hg
    · omega

theorem cursorInv_move (s : ViewerState) (target : String) (h : cursorInv s) :
    cursorInv (move_to_target s target).1 := by
  rcases hg : s.image_files[s.current_index]? with _ | img
  · simp [move_to_target, hg]; exact h
  · rcases hm : fsMove s.fs img (resolveCollision s.fs target img.name) with _ | fs1
    · simp [move_to_target, hg, hm]; exact h
    · rw [move_eq_ok s target img fs1 hg hm]
      exact cursorInv_remove_item _ _ h

theorem cursorInv_delete (s : ViewerState) (h : cursorInv s) :
    cursorInv (delete_current s).1 := by
  rcases hg : s.image_files[s.current_index]? with _ | img
  · simp [delete_current, hg]; exact h
  · rcases hm : fsMove s.fs img (resolveCollision s.fs s.trash_dir img.name) with _ | fs1
    · simp [delete_current, hg, hm]; exact h
    · rw [delete_eq_ok s img fs1 hg hm]
      exact cursorInv_remove_item _ _ h

theorem cursorInv_undo (s : ViewerState) (h : cursorInv s) :
    cursorInv (undo_last_action s).1 := by
  rcases hs : s.undo_stack with _ | ⟨e, rest⟩
  · rw [undo_eq_noHistory s hs]; exact h
  · rcases hm : fsMove s.fs e.new_path e.old_path with _ | fs1
    · rcases ha : e.action with _ | _ | _
      · rw [undo_eq_rename_fsError s e rest hs ha hm]; exact h
      · rw [undo_eq_restore_fsError s e rest hs (Or.inl ha) hm]; exact h
      · rw [undo_eq_restore_fsError s e rest hs (Or.inr ha) hm]; exact h
    · rcases ha : e.action with _ | _ | _
      · by_cases hidx : e.index < s.image_files.length
        · rw [undo_eq_rename_ok s e rest fs1 hs ha hm hidx]
          refine cursorInv_update_image _ (List.length_pos.mp ?_)
          simp only [List.length_set]
          omega
        · rw [undo_eq_rename_indexError s e rest fs1 hs ha hm hidx]; exact h
      · rw [undo_eq_restore_ok s e rest fs1 hs (Or.inl ha) hm]
        refine cursorInv_update_image _ (List.length_pos.mp ?_)
        simp only []
        rw [List.length_insertIdx _ _ (Nat.min_le_right _ _)]
        omega
      · rw [undo_eq_restore_ok s e rest fs1 hs (Or.inr ha) hm]
        refine cursorInv_update_image _ (List.length_pos.mp ?_)
        simp only []
        rw [List.length_insertIdx _ _ (Nat.min_le_right _ _)]
        omega

/-! ### Claim C5 -/

/-- C5: after a load the cursor is 0 on an empty view and in range otherwise;
every foreground operation preserves the cursor bounds (with jump targets
drawn, as the suggestion list guarantees, from the catalog); and the current
image is none exactly when the view is empty. -/
theorem c5_cursor_bounds :
    (∀ w i c, load_directory w i = Except.ok c →
      (c.image_files = [] ∧ c.current_index = 0) ∨
        c.current_index < c.image_files.length) ∧
    (∀ s op, cursorInv s → jumpTargetOk s op → cursorInv (step s op)) ∧
    (∀ s : ViewerState, s.image_files = [] → currentImage s = none) := by
  refine ⟨?_, ?_, ?_⟩
  · intro w i c hc
    unfold load_directory at hc
    rcases hw : mkdirTrash w with e | u
    · rw [hw] at hc; exact absurd hc (by simp)
    · rw [hw] at hc
      simp only [Except.ok.injEq] at hc
      rcases he : get_images w.entries with _ | ⟨q, l⟩

      · left
        constructor <;> simp [← hc, he]
      · right
        simp only [← hc, he]
        have : ¬ (q :: l).isEmpty = true := by simp
        rw [if_neg this]
        simp only [List.length_cons]
        omega
  · intro s op h hj
    cases op with
    | prev => exact cursorInv_nav_prev s h
    | next => exact cursorInv_nav_next s h
    | openSearch => exact cursorInv_open_search s h
    | search q => exact cursorInv_apply_filter s q h
    | jump t => exact cursorInv_jump_to_image s t h hj
    | rename n => exact cursorInv_rename s n h
    | move t => exact cursorInv_move s t h
    | delete => exact cursorInv_delete s h
    | undo => exact cursorInv_undo s h
  · intro s hnil
    unfold currentImage
    rw [hnil]
    simp

/-- A concrete viewer state used to witness the C5 preservation theorem. -/
def c5state : ViewerState :=
  { all_image_files := [⟨"d", "a.png"⟩, ⟨"d", "b.png"⟩],
    image_files := [⟨"d", "a.png"⟩, ⟨"d", "b.png"⟩],
    current_index := 1,
    undo_stack := [],
    is_search_filtered := false,
    pre_search_path := none,
    trash_dir := "d/.vimview_trash",
    fs := [⟨"d", "a.png"⟩, ⟨"d", "b.png"⟩] }

/-- Witness for C5 at a concrete state and operation. -/
theorem c5_cursor_bounds_witness : cursorInv (step c5state Op.next) :=
  c5_cursor_bounds.2.1 c5state Op.next (by decide) trivial

/-! ### Sorting lemmas -/

theorem strLeAux_total (a b : List Char) : strLeAux a b = true ∨ strLeAux b a = true := by
  induction a generalizing b with
  | nil => left; rfl
  | cons x xs ih =>
    cases b with
    | nil => right; rfl
    | cons y ys =>
      simp only [strLeAux]
      rcases Nat.lt_trichotomy x.toNat y.toNat with h | h | h
      · left; rw [if_pos h]
      · rw [if_neg (by omega), if_neg (by omega), if_neg (by omega), if_neg (by omega)]
        exact ih ys
      · right; rw [if_pos h]

theorem strLeAux_trans (a b c : List Char) (h1 : strLeAux a b = true)
    (h2 : strLeAux b c = true) : strLeAux a c = true := by
  induction a generalizing b c with
  | nil => rfl
  | cons x xs ih =>
    cases b with
    | nil => simp [strLeAux] at h1
    | cons y ys =>
      cases c with
      | nil => simp [strLeAux] at h2
      | cons z zs =>
        simp only [strLeAux] at h1 h2 ⊢
        split_ifs at h1 h2 ⊢ <;>
          first
            | rfl
            | omega
            | exact ih ys zs h1 h2

theorem strLe_total (a b : String) : strLe a b = true ∨ strLe b a = true :=
  strLeAux_total a.data b.data

theorem strLe_trans (a b c : String) (h1 : strLe a b = true) (h2 : strLe b c = true) :
    strLe a c = true :=
  strLeAux_trans a.data b.data c.data h1 h2

theorem mem_ordInsert (y x : String) (l : List String) :
    y ∈ ordInsert x l ↔ y = x ∨ y ∈ l := by
  induction l with
  | nil => simp [ordInsert]
  | cons z zs ih =>
    simp only [ordInsert]
    split
    · simp [List.mem_cons]
    · simp only [List.mem_cons, ih]
      tauto

theorem perm_ordInsert (x : String) (l : List String) : (ordInsert x l).Perm (x :: l) := by
  induction l with
  | nil => rfl
  | cons z zs ih =>
    simp only [ordInsert]
    split
    · exact List.Perm.refl _
    · exact (ih.cons z).trans (List.Perm.swap x z zs)

theorem pairwise_ordInsert (x : String) (l : List String)
    (h : l.Pairwise (fun a b => strLe a b = true)) :
    (ordInsert x l).Pairwise (fun a b => strLe a b = true) := by
  induction l with
  | nil => simp [ordInsert]
  | cons z zs ih =>
    rw [List.pairwise_cons] at h
    obtain ⟨hz, hzs⟩ := h
    simp only [ordInsert]
    split
    · next hle =>
      rw [List.pairwise_cons]
      refine ⟨?_, List.Pairwise.cons hz hzs⟩
      intro b hb
      rcases List.mem_cons.mp hb with rfl | hb
      · exact hle
      · exact strLe_trans x z b hle (hz b hb)
    · next hnle =>
      have hzx : strLe z x = true := (strLe_total x z).resolve_left hnle
      rw [List.pairwise_cons]
      refine ⟨?_, ih hzs⟩
      intro b hb
      rcases (mem_ordInsert b x zs).mp hb with rfl | hb
      · exact hzx
      · exact hz b hb

theorem pairwise_sortStrs (l : List String) :
    (sortStrs l).Pairwise (fun a b => strLe a b = true) := by
  induction l with
  | nil => simp [sortStrs]
  | cons x xs ih => exact pairwise_ordInsert x _ ih

theorem perm_sortStrs (l : List String) : (sortStrs l).Perm l := by
  induction l with
  | nil => rfl
  | cons x xs ih => exact (perm_ordInsert x (sortStrs xs)).trans (ih.cons x)

theorem mem_sortStrs (y : String) (l : List String) : y ∈ sortStrs l ↔ y ∈ l :=
  (perm_sortStrs l).mem_iff

/-! ### Claim C2 -/

/-- Modelled from the spec words of C2, which count only the regular files of
the listing as images; compare `get_images`, which never checks the entry
kind. -/
def specLoadImages (entries : List Entry) : List String :=
  sortStrs
    ((entries.filter (fun e => imageEntry e && (e.kind == EntryKind.file))).map Entry.name)

/-- A directory holding a regular file `a.png` and a subdirectory named
`b.png`. -/
def c2world : LoadWorld :=
  ⟨.dirPath, [⟨"a.png", .file⟩, ⟨"b.png", .subdir⟩], .missing⟩

/-- C2 fails as stated: loading lists the subdirectory `b.png` as an image,
while the spec's file-only reading yields just `a.png`. -/
theorem c2_counterexample :
    load_directory c2world 0 =
      .ok ⟨["a.png", "b.png"], ["a.png", "b.png"], 0⟩ ∧
    specLoadImages c2world.entries = ["a.png"] ∧
    (["a.png", "b.png"] : List String) ≠ ["a.png"] := by decide

/-- C2 (amended): loading an existing directory (whose trash path is not a
plain file) succeeds, `active_view` equals `all_images`, the cursor is 0, and
`all_images` is the lexicographically sorted list of exactly the directory
entries — files and subdirectories alike — whose extension is supported
case-insensitively and whose name is not hidden. -/
theorem c2_load_lists_matching_entries (w : LoadWorld)
    (hdir : w.dirKind = .dirPath) (htrash : w.trashKind ≠ .plainFile) :
    ∃ c, load_directory w 0 = .ok c ∧
      c.image_files = c.all_image_files ∧
      c.current_index = 0 ∧
      c.all_image_files.Pairwise (fun a b => strLe a b = true) ∧
      (∀ n, n ∈ c.all_image_files ↔
        ∃ e ∈ w.entries, e.name = n ∧ imageEntry e = true) := by
  have hmk : mkdirTrash w = .ok () := by
    unfold mkdirTrash
    rw [hdir]
    rcases ht : w.trashKind with _ | _ | _
    · rfl
    · exact absurd ht htrash
    · rfl
  refine ⟨⟨get_images w.entries, get_images w.entries, 0⟩, ?_, rfl, rfl, ?_, ?_⟩
  · simp only [load_directory, hmk]
    split <;> simp
  · exact pairwise_sortStrs _
  · intro n
    show n ∈ get_images w.entries ↔ _
    unfold get_images
    rw [mem_sortStrs]
    simp only [List.mem_map, List.mem_filter]
    constructor
    · rintro ⟨e, ⟨he, hie⟩, rfl⟩
      exact ⟨e, he, rfl, hie⟩
    · rintro ⟨e, he, rfl, hie⟩
      exact ⟨e, ⟨he, hie⟩, rfl⟩

/-- Witness for the amended C2 at the concrete two-entry directory. -/
theorem c2_load_lists_matching_entries_witness :
    ∃ c, load_directory c2world 0 = .ok c ∧
      c.image_files = c.all_image_files ∧
      c.current_index = 0 ∧
      c.all_image_files.Pairwise (fun a b => strLe a b = true) ∧
      (∀ n, n ∈ c.all_image_files ↔
        ∃ e ∈ c2world.entries, e.name = n ∧ imageEntry e = true) :=
  c2_load_lists_matching_entries c2world rfl (by decide)

/-! ### Claim C8 -/

/-- C8: loading a missing path fails with NotFound, and loading a path that is
a plain file fails with NotADirectory; in neither case is a catalog produced. -/
theorem c8_load_bad_directory_fails (w : LoadWorld) (i : Nat) :
    (w.dirKind = .missing → load_directory w i = .error .notFound) ∧
    (w.dirKind = .plainFile → load_directory w i = .error .notADirectory) := by
  constructor <;> intro h <;> simp [load_directory, mkdirTrash, h]

/-- A missing directory path. -/
def c8world : LoadWorld := ⟨.missing, [], .missing⟩

/-- Witness for C8 on a concrete missing path. -/
theorem c8_load_bad_directory_fails_witness :
    load_directory c8world 3 = .error .notFound :=
  (c8_load_bad_directory_fails c8world 3).1 rfl

/-! ### Claim C4 -/

/-- The scenario directory of C4: `a.png`, `b.jpg`, `note.txt`. -/
def c4world : LoadWorld :=
  ⟨.dirPath, [⟨"a.png", .file⟩, ⟨"b.jpg", .file⟩, ⟨"note.txt", .file⟩], .missing⟩

/-- The viewer state right after loading the C4 scenario directory. -/
def c4state : ViewerState :=
  { all_image_files := [⟨"d", "a.png"⟩, ⟨"d", "b.jpg"⟩],
    image_files := [⟨"d", "a.png"⟩, ⟨"d", "b.jpg"⟩],
    current_index := 0,
    undo_stack := [],
    is_search_filtered := false,
    pre_search_path := none,
    trash_dir := "d/.vimview_trash",
    fs := [⟨"d", "a.png"⟩, ⟨"d", "b.jpg"⟩, ⟨"d", "note.txt"⟩] }

/-- C4 fails as stated: renaming `a.png` to `z` produces `z.png`, but
`all_images` becomes `[z.png, b.jpg]` — the new path is substituted in place
and the list is not re-sorted, so it differs from the claimed `[b.jpg, z.png]`. -/
theorem c4_counterexample :
    load_directory c4world 0 = .ok ⟨["a.png", "b.jpg"], ["a.png", "b.jpg"], 0⟩ ∧
    (rename_current_file c4state "z").2 = OpOutcome.ok ∧
    (rename_current_file c4state "z").1.all_image_files
        = [⟨"d", "z.png"⟩, ⟨"d", "b.jpg"⟩] ∧
    (rename_current_file c4state "z").1.all_image_files
        ≠ [PPath.mk "d" "b.jpg", ⟨"d", "z.png"⟩] := by decide

/-- C4 (amended): in the scenario directory the load yields view
`[a.png, b.jpg]`; renaming `a.png` to `z` (no extension typed) succeeds,
producing the file `z.png` on disk and removing `a.png`; `all_images` and the
view become `[z.png, b.jpg]` — the renamed path keeps its old position and
sortedness is not re-established. -/
theorem c4_rename_substitutes_in_place :
    load_directory c4world 0 = .ok ⟨["a.png", "b.jpg"], ["a.png", "b.jpg"], 0⟩ ∧
    (rename_current_file c4state "z").2 = OpOutcome.ok ∧
    fsHas (rename_current_file c4state "z").1.fs ⟨"d", "z.png"⟩ = true ∧
    fsHas (rename_current_file c4state "z").1.fs ⟨"d", "a.png"⟩ = false ∧
    (rename_current_file c4state "z").1.all_image_files
        = [⟨"d", "z.png"⟩, ⟨"d", "b.jpg"⟩] ∧
    (rename_current_file c4state "z").1.image_files
        = [⟨"d", "z.png"⟩, ⟨"d", "b.jpg"⟩] := by decide

/-! ### Claim C3 -/

/-- C3 (amended): when the filesystem reversal step of an undo fails, the
catalog lists, cursor, filter flag and filesystem are untouched and the
failure is reported; but the entry being reversed is not retained: it was
popped before the attempt and is discarded, so the undo stack shrinks by one. -/
theorem c3_undo_failure_drops_entry (s s1 : ViewerState)
    (h : undo_last_action s = (s1, OpOutcome.fsError)) :
    s1.all_image_files = s.all_image_files ∧ s1.image_files = s.image_files ∧
    s1.current_index = s.current_index ∧ s1.fs = s.fs ∧
    s1.is_search_filtered = s.is_search_filtered ∧
    s1.undo_stack = s.undo_stack.tail ∧ s.undo_stack ≠ [] := by
  rcases hs : s.undo_stack with _ | ⟨e, rest⟩
  · rw [undo_eq_noHistory s hs] at h
    simpa using congrArg Prod.snd h
  · rcases hm : fsMove s.fs e.new_path e.old_path with _ | fs1
    · have heq : undo_last_action s = ({ s with undo_stack := rest }, .fsError) := by
        rcases ha : e.action with _ | _ | _
        · exact undo_eq_rename_fsError s e rest hs ha hm
        · exact undo_eq_restore_fsError s e rest hs (Or.inl ha) hm
        · exact undo_eq_restore_fsError s e rest hs (Or.inr ha) hm
      rw [heq] at h
      have h1 : ({ s with undo_stack := rest } : ViewerState) = s1 := congrArg Prod.fst h
      refine ⟨?_, ?_, ?_, ?_, ?_, ?_, ?_⟩ <;> simp [← h1, hs]
    · exfalso
      rcases ha : e.action with _ | _ | _
      · by_cases hidx : e.index < s.image_files.length
        · rw [undo_eq_rename_ok s e rest fs1 hs ha hm hidx] at h
          simpa using congrArg Prod.snd h
        · rw [undo_eq_rename_indexError s e rest fs1 hs ha hm hidx] at h
          simpa using congrArg Prod.snd h
      · rw [undo_eq_restore_ok s e rest fs1 hs (Or.inl ha) hm] at h
        simpa using congrArg Prod.snd h
      · rw [undo_eq_restore_ok s e rest fs1 hs (Or.inr ha) hm] at h
        simpa using congrArg Prod.snd h

/-- A state whose top undo entry cannot be reversed: the recorded new path is
no longer on disk, so the filesystem rename raises. -/
def c3state : ViewerState :=
  { all_image_files := [⟨"d", "b.png"⟩],
    image_files := [⟨"d", "b.png"⟩],
    current_index := 0,
    undo_stack := [⟨.rename_inplace, ⟨"d", "a.png"⟩, ⟨"d", "z.png"⟩, 0⟩],
    is_search_filtered := false,
    pre_search_path := none,
    trash_dir := "d/.vimview_trash",
    fs := [⟨"d", "b.png"⟩] }

/-- C3 fails as stated: on a failing reversal the undo stack is not left
exactly as it was — the popped entry is gone. -/
theorem c3_counterexample :
    (undo_last_action c3state).2 = OpOutcome.fsError ∧
    (undo_last_action c3state).1.undo_stack ≠ c3state.undo_stack := by decide

/-- Witness for the amended C3 at the concrete failing state. -/
theorem c3_undo_failure_drops_entry_witness :
    ({ c3state with undo_stack := [] } : ViewerState).all_image_files
        = c3state.all_image_files ∧
    ({ c3state with undo_stack := [] } : ViewerState).image_files = c3state.image_files ∧
    ({ c3state with undo_stack := [] } : ViewerState).current_index
        = c3state.current_index ∧
    ({ c3state with undo_stack := [] } : ViewerState).fs = c3state.fs ∧
    ({ c3state with undo_stack := [] } : ViewerState).is_search_filtered
        = c3state.is_search_filtered ∧
    ({ c3state with undo_stack := [] } : ViewerState).undo_stack
        = c3state.undo_stack.tail ∧
    c3state.undo_stack ≠ [] :=
  c3_undo_failure_drops_entry c3state { c3state with undo_stack := [] } (by decide)

/-! ### Claim C9 -/

/-- State reaching a rename undo whose recorded index exceeds the current view
length: three images, the last renamed at index 2, then a filter narrowed the
view to a single entry. -/
def c9state : ViewerState :=
  { all_image_files := [⟨"d", "a.png"⟩, ⟨"d", "b.png"⟩, ⟨"d", "z.png"⟩],
    image_files := [⟨"d", "a.png"⟩],
    current_index := 0,
    undo_stack := [⟨.rename_inplace, ⟨"d", "c.png"⟩, ⟨"d", "z.png"⟩, 2⟩],
    is_search_filtered := true,
    pre_search_path := some ⟨"d", "a.png"⟩,
    trash_dir := "d/.vimview_trash",
    fs := [⟨"d", "a.png"⟩, ⟨"d", "b.png"⟩, ⟨"d", "z.png"⟩] }

/-- C9 fails as stated: the rename undo uses its recorded index unvalidated;
with the view narrowed by an intervening filter the list assignment goes out
of bounds (IndexError), and only the broad exception handler catches it —
after the file was already renamed back on disk. -/
theorem c9_counterexample :
    (undo_last_action c9state).2 = OpOutcome.indexError ∧
    (undo_last_action c9state).1.fs ≠ c9state.fs := by decide

/-- C9 (amended): the move and delete undo branches are effectively clamped —
the re-insert position is the recorded index clamped to the current length and
the final cursor is in bounds — but the rename branch uses the recorded index
unvalidated and raises exactly when it is not below the current view length,
aborting with the lists untouched after the filesystem rename. -/
theorem c9_undo_index_validation (s : ViewerState) (e : UndoEntry) (rest : List UndoEntry)
    (fs1 : Fs) (hs : s.undo_stack = e :: rest)
    (hm : fsMove s.fs e.new_path e.old_path = some fs1) :
    ((e.action = .move ∨ e.action = .delete) →
      (undo_last_action s).2 = .ok ∧
      (undo_last_action s).1.image_files =
        s.image_files.insertIdx (min e.index s.image_files.length) e.old_path ∧
      cursorInv (undo_last_action s).1) ∧
    (e.action = .rename_inplace →
      ((undo_last_action s).2 = .indexError ↔ s.image_files.length ≤ e.index) ∧
      ((undo_last_action s).2 = .indexError →
        (undo_last_action s).1.image_files = s.image_files ∧
        (undo_last_action s).1.all_image_files = s.all_image_files ∧
        (undo_last_action s).1.fs = fs1)) := by
  constructor
  · intro ha
    rw [undo_eq_restore_ok s e rest fs1 hs ha hm]
    refine ⟨rfl, ?_, ?_⟩
    · rw [update_image_image_files]
    · refine cursorInv_update_image _ (List.length_pos.mp ?_)
      simp only []
      rw [List.length_insertIdx _ _ (Nat.min_le_right _ _)]
      omega
  · intro ha
    by_cases hidx : e.index < s.image_files.length
    · rw [undo_eq_rename_ok s e rest fs1 hs ha hm hidx]
      constructor
      · simp only []
        constructor
        · intro hcontra; exact absurd hcontra (by simp)
        · omega
      · intro hcontra; exact absurd hcontra (by simp)
    · rw [undo_eq_rename_indexError s e rest fs1 hs ha hm hidx]
      refine ⟨⟨fun _ => by omega, fun _ => rfl⟩, fun _ => ⟨rfl, rfl, rfl⟩⟩

/-- Witness for the amended C9 at the concrete out-of-range rename state. -/
theorem c9_undo_index_validation_witness :
    ((undo_last_action c9state).2 = OpOutcome.indexError ↔
      c9state.image_files.length ≤ 2) :=
  ((c9_undo_index_validation c9state
      ⟨.rename_inplace, ⟨"d", "c.png"⟩, ⟨"d", "z.png"⟩, 2⟩ []
      [⟨"d", "c.png"⟩, ⟨"d", "a.png"⟩, ⟨"d", "b.png"⟩]
      (by decide) (by decide)).2 rfl).1

/-! ### Claim C6 -/

theorem pyIndex_lt_length (l : List PPath) (x : PPath) (h : x ∈ l) :
    pyIndex l x < l.length := by
  induction l with
  | nil => simp at h
  | cons y ys ih =>
    simp only [pyIndex]
    split
    · simp
    · next hne =>
      have hx : x ∈ ys := by
        rcases List.mem_cons.mp h with rfl | hx
        · exact absurd rfl hne
        · exact hx
      simp only [List.length_cons]
      exact Nat.succ_lt_succ (ih hx)

theorem pyIndex_of_getElem? (l : List PPath) (x : PPath) (i : Nat)
    (hnodup : l.Nodup) (h : l[i]? = some x) : pyIndex l x = i := by
  induction l generalizing i with
  | nil => simp at h
  | cons y ys ih =>
    rw [List.nodup_cons] at hnodup
    cases i with
    | zero =>
      simp only [List.getElem?_cons_zero, Option.some.injEq] at h
      simp [pyIndex, h]
    | succ j =>
      simp only [List.getElem?_cons_succ] at h
      have hx : x ∈ ys := by
        have := List.getElem?_eq_some.mp h
        exact this.2 ▸ List.getElem_mem _
      have hne : y ≠ x := fun hyx => hnodup.1 (hyx ▸ hx)
      simp only [pyIndex]
      rw [if_neg hne]
      rw [ih j hnodup.2 h]

/-- Mid-search-session invariant: the catalog never changes; either no query
has matched yet (view and cursor as at the start of the session) or the state
is filtered with the pre-search path recorded. -/
def searchMid (s st : ViewerState) (p0 : PPath) : Prop :=
  st.all_image_files = s.all_image_files ∧
  ((st.is_search_filtered = false ∧ st.image_files = s.image_files ∧
      st.current_index = s.current_index) ∨
   (st.is_search_filtered = true ∧ st.pre_search_path = some p0))

theorem searchMid_init (s : ViewerState) (p0 : PPath) (hf : s.is_search_filtered = false) :
    searchMid s s p0 :=
  ⟨rfl, Or.inl ⟨hf, rfl, rfl⟩⟩

theorem searchMid_searchRound (s st : ViewerState) (p0 : PPath) (q : String)
    (hq : q ≠ "") (hp0 : s.image_files[s.current_index]? = some p0)
    (h : searchMid s st p0) : searchMid s (searchRound st q) p0 := by
  obtain ⟨hall, hcase⟩ := h
  have hne : s.image_files ≠ [] := by
    rintro hnil; rw [hnil] at hp0; simp at hp0
  unfold searchRound
  rcases hcase with ⟨hf, himg, hci⟩ | ⟨hf, hpsp⟩
  · have hopen : open_search st = { st with pre_search_path := some p0 } := by
      unfold open_search
      rw [if_pos (by simp [hf, himg, hne])]
      rw [himg, hci, hp0]
    rw [hopen]
    by_cases hh : st.all_image_files.filter (nameMatches q) = []
    · rw [apply_filter_eq_noMatches _ q hq (by simpa using hh)]
      exact ⟨hall, Or.inl ⟨hf, himg, hci⟩⟩
    · rw [apply_filter_eq_hits _ q hq (by simpa using hh)]
      refine ⟨?_, Or.inr ⟨?_, ?_⟩⟩
      · rw [update_image_all]; exact hall
      · rw [update_image_filtered]
      · rw [update_image_psp]
  · have hopen : open_search st = st := by
      unfold open_search
      rw [if_neg (by simp [hf])]
    rw [hopen]
    by_cases hh : st.all_image_files.filter (nameMatches q) = []
    · rw [apply_filter_eq_noMatches _ q hq hh]
      exact ⟨hall, Or.inr ⟨hf, hpsp⟩⟩
    · rw [apply_filter_eq_hits _ q hq hh]
      refine ⟨?_, Or.inr ⟨?_, ?_⟩⟩
      · rw [update_image_all]; exact hall
      · rw [update_image_filtered]
      · rw [update_image_psp]; exact hpsp

theorem searchMid_filterMany (s : ViewerState) (p0 : PPath) (qs : List String)
    (hq : ∀ q ∈ qs, q ≠ "") (hf : s.is_search_filtered = false)
    (hp0 : s.image_files[s.current_index]? = some p0) :
    searchMid s (filterMany s qs) p0 := by
  unfold filterMany
  have : ∀ st, searchMid s st p0 → searchMid s (qs.foldl searchRound st) p0 := by
    induction qs with
    | nil => intro st h; exact h
    | cons q qs' ih =>
      intro st h
      rw [List.foldl_cons]
      exact ih (fun r hr => hq r (List.mem_cons_of_mem q hr))
        (searchRound st q) (searchMid_searchRound s st p0 q (hq q (List.mem_cons_self q qs')) hp0 h)
  exact this s (searchMid_init s p0 hf)

/-- C6: after a search session of non-empty queries, clearing the filter
restores `active_view = all_images` and the cursor returns to the image that
was current before filtering began — that path being recorded once, on the
first search opening of the session, and never overwritten by re-filters —
or to 0 if the path is gone (which cannot happen within a pure filter
session). -/
theorem c6_clear_filter_restores (s : ViewerState) (qs : List String) (p0 : PPath)
    (hq : ∀ q ∈ qs, q ≠ "")
    (hnodup : s.all_image_files.Nodup)
    (hview : s.image_files = s.all_image_files)
    (hf : s.is_search_filtered = false)
    (hp0 : s.image_files[s.current_index]? = some p0) :
    (clear_search_filter (filterMany s qs)).image_files = s.all_image_files ∧
    (clear_search_filter (filterMany s qs)).current_index =
      (if p0 ∈ s.all_image_files then pyIndex s.all_image_files p0 else 0) ∧
    (clear_search_filter (filterMany s qs)).current_index = s.current_index := by
  have hmem : p0 ∈ s.all_image_files := by
    rw [← hview]
    have := List.getElem?_eq_some.mp hp0
    exact this.2 ▸ List.getElem_mem _
  have hidx : pyIndex s.all_image_files p0 = s.current_index :=
    pyIndex_of_getElem? _ _ _ hnodup (by rw [← hview]; exact hp0)
  obtain ⟨hall, hcase⟩ := searchMid_filterMany s p0 qs hq hf hp0
  rcases hcase with ⟨hf2, himg, hci⟩ | ⟨hf2, hpsp⟩
  · rw [clear_eq_of_not_filtered _ hf2]
    refine ⟨by rw [himg, hview], ?_, hci⟩
    rw [if_pos hmem, hidx]
    exact hci
  · have hmem2 : p0 ∈ (filterMany s qs).all_image_files := by rw [hall]; exact hmem
    rw [clear_eq_mem _ p0 hf2 hpsp hmem2]
    have hne : (filterMany s qs).all_image_files ≠ [] := by
      rintro hnil; rw [hnil] at hmem2; simp at hmem2
    rw [update_image_of_nonempty _ (by simpa using hne)]
    have hlt : pyIndex s.all_image_files p0 < s.all_image_files.length :=
      pyIndex_lt_length _ _ hmem
    refine ⟨hall, ?_, ?_⟩
    · show min (pyIndex (filterMany s qs).all_image_files p0)
          ((filterMany s qs).all_image_files.length - 1) =
        (if p0 ∈ s.all_image_files then pyIndex s.all_image_files p0 else 0)
      rw [hall, if_pos hmem]
      exact Nat.min_eq_left (by omega)
    · show min (pyIndex (filterMany s qs).all_image_files p0)
          ((filterMany s qs).all_image_files.length - 1) = s.current_index
      rw [hall, Nat.min_eq_left (by omega), hidx]

/-- A concrete pre-search state for the C6 witness: two images with the cursor
on the second. -/
def c6state : ViewerState :=
  { all_image_files := [⟨"d", "a.png"⟩, ⟨"d", "b.png"⟩],
    image_files := [⟨"d", "a.png"⟩, ⟨"d", "b.png"⟩],
    current_index := 1,
    undo_stack := [],
    is_search_filtered := false,
    pre_search_path := none,
    trash_dir := "d/.vimview_trash",
    fs := [⟨"d", "a.png"⟩, ⟨"d", "b.png"⟩] }

/-- Witness for C6: searching "a" and clearing returns the cursor to b.png. -/
theorem c6_clear_filter_restores_witness :
    (clear_search_filter (filterMany c6state ["a"])).image_files
        = c6state.all_image_files ∧
    (clear_search_filter (filterMany c6state ["a"])).current_index =
      (if (⟨"d", "b.png"⟩ : PPath) ∈ c6state.all_image_files
        then pyIndex c6state.all_image_files ⟨"d", "b.png"⟩ else 0) ∧
    (clear_search_filter (filterMany c6state ["a"])).current_index
        = c6state.current_index :=
  c6_clear_filter_restores c6state ["a"] ⟨"d", "b.png"⟩
    (by intro q hq; simp at hq; simp [hq]) (by decide) rfl rfl (by decide)

/-! ### Claim C7 -/

/-- Reads a decimal digit string back into a number (left inverse used to show
the printed counters are pairwise distinct). -/
def decodeDec (l : List Char) : Nat :=
  l.foldl (fun acc c => acc * 10 + (c.toNat - 48)) 0

theorem digitChar_toNat (d : Nat) (h : d < 10) : (Nat.digitChar d).toNat = 48 + d := by
  interval_cases d <;> rfl

theorem decodeDec_append_digit (l : List Char) (c : Char) :
    decodeDec (l ++ [c]) = decodeDec l * 10 + (c.toNat - 48) := by
  unfold decodeDec
  rw [List.foldl_append]
  rfl

theorem decodeDec_decDigits (fuel n : Nat) (h : n ≤ fuel) :
    decodeDec (decDigits fuel n) = n := by
  induction fuel generalizing n with
  | zero =>
    interval_cases n
    rfl
  | succ f ih =>
    rw [decDigits]
    by_cases h0 : n = 0
    · rw [if_pos h0, h0]; rfl
    · rw [if_neg h0, decodeDec_append_digit]
      have hdiv : n / 10 ≤ f := by
        have hlt : n / 10 < n := Nat.div_lt_self (Nat.pos_of_ne_zero h0) (by omega)
        omega
      rw [ih (n / 10) hdiv, digitChar_toNat (n % 10) (Nat.mod_lt n (by omega))]
      have := Nat.div_add_mod n 10
      omega

theorem natToStr_inj (m n : Nat) (hm : 0 < m) (hn : 0 < n)
    (h : natToStr m = natToStr n) : m = n := by
  unfold natToStr at h
  rw [if_neg (by omega), if_neg (by omega)] at h
  have hd : decDigits m m = decDigits n n := congrArg String.data h
  have h1 := decodeDec_decDigits m m (Nat.le_refl m)
  have h2 := decodeDec_decDigits n n (Nat.le_refl n)
  rw [← h1, ← h2, hd]

theorem candName_inj (stem ext : String) (m n : Nat) (hm : 0 < m) (hn : 0 < n)
    (h : candName stem ext m = candName stem ext n) : m = n := by
  unfold candName at h
  have h2 := congrArg String.data h
  simp only [String.data_append, List.append_assoc] at h2
  have h3 := List.append_cancel_left h2
  have h4 := List.append_cancel_left h3
  have h5 := List.append_cancel_right h4
  exact natToStr_inj m n hm hn (String.ext h5)

theorem fsHas_iff (fs : Fs) (p : PPath) : fsHas fs p = true ↔ p ∈ fs := by
  simp [fsHas, List.elem_iff]

theorem fsHas_false_iff (fs : Fs) (p : PPath) : fsHas fs p = false ↔ p ∉ fs := by
  rw [← Bool.not_eq_true, not_iff_not]
  exact fsHas_iff fs p

theorem mem_fsMove (fs fs1 : Fs) (src dst p : PPath)
    (h : fsMove fs src dst = some fs1) :
    p ∈ fs1 ↔ p = dst ∨ (p ∈ fs ∧ p ≠ src ∧ p ≠ dst) := by
  unfold fsMove at h
  split at h
  · rw [Option.some.injEq] at h
    subst h
    simp only [List.mem_cons, List.mem_filter, Bool.and_eq_true, bne_iff_ne]
  · exact absurd h (by simp)

theorem fsMove_some (fs : Fs) (src dst : PPath) (h : src ∈ fs) :
    fsMove fs src dst =
      some (dst :: fs.filter (fun p => p != src && p != dst)) := by
  unfold fsMove
  rw [if_pos ((fsHas_iff fs src).mpr h)]

/-- Pigeonhole: among the first `fs.length + 1` suffixed candidates one name
is free — the printed counters make the candidates pairwise distinct while
`fs` holds only `fs.length` files. -/
theorem exists_free_cand (fs : Fs) (dir stem ext : String) :
    ∃ j < fs.length + 1, fsHas fs ⟨dir, candName stem ext (1 + j)⟩ = false := by
  by_contra hcon
  have hall : ∀ j < fs.length + 1, (⟨dir, candName stem ext (1 + j)⟩ : PPath) ∈ fs := by
    intro j hj
    cases hx : fsHas fs ⟨dir, candName stem ext (1 + j)⟩
    · exact absurd ⟨j, hj, hx⟩ hcon
    · exact (fsHas_iff _ _).mp hx
  have hinj : Function.Injective (fun j : Nat => PPath.mk dir (candName stem ext (1 + j))) := by
    intro a b hab
    simp only [PPath.mk.injEq] at hab
    have := candName_inj stem ext (1 + a) (1 + b) (by omega) (by omega) hab.2
    omega
  have hnodup : ((List.range (fs.length + 1)).map
      (fun j => PPath.mk dir (candName stem ext (1 + j)))).Nodup :=
    (List.nodup_range _).map hinj
  have hsub : ((List.range (fs.length + 1)).map
      (fun j => PPath.mk dir (candName stem ext (1 + j)))) ⊆ fs := by
    intro p hp
    obtain ⟨j, hj, rfl⟩ := List.mem_map.mp hp
    exact hall j (List.mem_range.mp hj)
  have hlen := (List.subperm_of_subset hnodup hsub).length_le
  simp only [List.length_map, List.length_range] at hlen
  omega

/-- The fuelled collision loop returns the first free candidate as soon as one
exists within the fuel, and the skipped candidates were all taken. -/
theorem collisionLoop_spec (fs : Fs) (dir stem ext : String) (fuel : Nat) :
    ∀ k, (∃ j < fuel, fsHas fs ⟨dir, candName stem ext (k + j)⟩ = false) →
      ∃ j < fuel,
        collisionLoop fs dir stem ext fuel k = ⟨dir, candName stem ext (k + j)⟩ ∧
        fsHas fs ⟨dir, candName stem ext (k + j)⟩ = false ∧
        ∀ i < j, fsHas fs ⟨dir, candName stem ext (k + i)⟩ = true := by
  induction fuel with
  | zero =>
    intro k hex
    obtain ⟨j, hj, _⟩ := hex
    omega
  | succ f ih =>
    intro k hex
    rcases h0 : fsHas fs ⟨dir, candName stem ext k⟩ with _ | _
    · refine ⟨0, by omega, ?_, by simpa using h0, by omega⟩
      show collisionLoop fs dir stem ext (f + 1) k = _
      rw [collisionLoop, if_neg (by simp [h0])]
      simp
    · have hex' : ∃ j < f, fsHas fs ⟨dir, candName stem ext (k + 1 + j)⟩ = false := by
        obtain ⟨j, hj, hfree⟩ := hex
        cases j with
        | zero =>
          rw [Nat.add_zero] at hfree
          rw [h0] at hfree
          exact absurd hfree (by simp)
        | succ j' =>
          refine ⟨j', by omega, ?_⟩
          have harith : k + 1 + j' = k + (j' + 1) := by omega
          rw [harith]
          exact hfree
      obtain ⟨j, hj, heq, hfree, hall⟩ := ih (k + 1) hex'
      refine ⟨j + 1, by omega, ?_, ?_, ?_⟩
      · rw [collisionLoop, if_pos (by simp [h0])]
        rw [heq]
        have harith : k + 1 + j = k + (j + 1) := by omega
        rw [harith]
      · have harith : k + (j + 1) = k + 1 + j := by omega
        rw [harith]
        exact hfree
      · intro i hi
        cases i with
        | zero => simpa using h0
        | succ i' =>
          have harith : k + (i' + 1) = k + 1 + i' := by omega
          rw [harith]
          exact hall i' (by omega)

theorem resolveCollision_free (fs : Fs) (dir name : String) :
    fsHas fs (resolveCollision fs dir name) = false := by
  unfold resolveCollision
  rcases h0 : fsHas fs ⟨dir, name⟩ with _ | _
  · simpa using h0
  · rw [if_pos (by simp [h0])]
    obtain ⟨j, hj, hfree⟩ := exists_free_cand fs dir (pyStem name) (pySuffix name)
    obtain ⟨j', _, heq, hfree', _⟩ :=
      collisionLoop_spec fs dir (pyStem name) (pySuffix name) (fs.length + 1) 1
        ⟨j, hj, hfree⟩
    rw [heq]
    exact hfree'

theorem resolveCollision_dir (fs : Fs) (dir name : String) :
    (resolveCollision fs dir name).dir = dir := by
  unfold resolveCollision
  rcases h0 : fsHas fs ⟨dir, name⟩ with _ | _
  · simp
  · rw [if_pos (by simp [h0])]
    obtain ⟨j, hj, hfree⟩ := exists_free_cand fs dir (pyStem name) (pySuffix name)
    obtain ⟨j', _, heq, _, _⟩ :=
      collisionLoop_spec fs dir (pyStem name) (pySuffix name) (fs.length + 1) 1
        ⟨j, hj, hfree⟩
    rw [heq]

/-- C7: the collision-resolved destination never exists beforehand, so nothing
is overwritten and the loop cannot fail; it is the plain name when that is
free, else the first free `stem_<n><ext>` with n = 1, 2, ... (all earlier
candidates taken); and when the plain destination name was taken, performing
the filesystem move leaves both the pre-existing file and the moved file on
disk, at distinct paths, with the source gone. -/
theorem c7_collision_avoidance (fs : Fs) (dir name : String) :
    fsHas fs (resolveCollision fs dir name) = false ∧
    (fsHas fs ⟨dir, name⟩ = false → resolveCollision fs dir name = ⟨dir, name⟩) ∧
    (fsHas fs ⟨dir, name⟩ = true →
      ∃ n, 1 ≤ n ∧
        resolveCollision fs dir name =
          ⟨dir, candName (pyStem name) (pySuffix name) n⟩ ∧
        ∀ m, 1 ≤ m → m < n →
          fsHas fs ⟨dir, candName (pyStem name) (pySuffix name) m⟩ = true) ∧
    (fsHas fs ⟨dir, name⟩ = true →
      ∀ src fs1, src ∈ fs → src ≠ ⟨dir, name⟩ →
        fsMove fs src (resolveCollision fs dir name) = some fs1 →
        (⟨dir, name⟩ : PPath) ∈ fs1 ∧
        resolveCollision fs dir name ∈ fs1 ∧
        resolveCollision fs dir name ≠ ⟨dir, name⟩ ∧
        src ∉ fs1) := by
  have hfree := resolveCollision_free fs dir name
  refine ⟨hfree, ?_, ?_, ?_⟩
  · intro h0
    unfold resolveCollision
    rw [if_neg (by simp [h0])]
  · intro h0
    unfold resolveCollision
    rw [if_pos (by simp [h0])]
    obtain ⟨j, hj, hf⟩ := exists_free_cand fs dir (pyStem name) (pySuffix name)
    obtain ⟨j', hj', heq, hfree', hall⟩ :=
      collisionLoop_spec fs dir (pyStem name) (pySuffix name) (fs.length + 1) 1
        ⟨j, hj, hf⟩
    refine ⟨1 + j', by omega, heq, ?_⟩
    intro m hm1 hmj
    have harith : m = 1 + (m - 1) := by omega
    rw [harith]
    exact hall (m - 1) (by omega)
  · intro h0 src fs1 hsrc hne hmv
    have hX : (⟨dir, name⟩ : PPath) ∈ fs := (fsHas_iff _ _).mp h0
    have hdstX : resolveCollision fs dir name ≠ ⟨dir, name⟩ := by
      intro hcontra
      rw [hcontra] at hfree
      rw [h0] at hfree
      exact absurd hfree (by simp)
    have hdst_notin : resolveCollision fs dir name ∉ fs := (fsHas_false_iff _ _).mp hfree
    have hsrc_ne_dst : src ≠ resolveCollision fs dir name := by
      intro hcontra
      rw [← hcontra] at hdst_notin
      exact hdst_notin hsrc
    refine ⟨?_, ?_, hdstX, ?_⟩
    · rw [mem_fsMove fs fs1 src _ _ hmv]
      right
      exact ⟨hX, hne.symm, fun hcontra => hdstX hcontra.symm⟩
    · rw [mem_fsMove fs fs1 src _ _ hmv]
      left
      rfl
    · rw [mem_fsMove fs fs1 src _ _ hmv]
      push_neg
      refine ⟨hsrc_ne_dst, fun _ hss => absurd rfl hss⟩

/-- A filesystem with a collision: moving `d/a.png` into `t`, which already
holds its own `a.png`. -/
def c7fs : Fs := [⟨"t", "a.png"⟩, ⟨"d", "a.png"⟩]

/-- The filesystem after that move: the file lands as `t/a_1.png`. -/
def c7fs1 : Fs := [⟨"t", "a_1.png"⟩, ⟨"t", "a.png"⟩]

/-- Witness for C7 at the concrete colliding move. -/
theorem c7_collision_avoidance_witness :
    (⟨"t", "a.png"⟩ : PPath) ∈ c7fs1 ∧
    resolveCollision c7fs "t" "a.png" ∈ c7fs1 ∧
    resolveCollision c7fs "t" "a.png" ≠ ⟨"t", "a.png"⟩ ∧
    (⟨"d", "a.png"⟩ : PPath) ∉ c7fs1 :=
  (c7_collision_avoidance c7fs "t" "a.png").2.2.2 (by decide)
    ⟨"d", "a.png"⟩ c7fs1 (by decide) (by decide) (by decide)

/-! ### Claim C1 -/

theorem replaceFirst_replaceFirst (l : List PPath) (o n : PPath) (hn : n ∉ l) :
    replaceFirst (replaceFirst l o n) n o = l := by
  induction l with
  | nil => rfl
  | cons x xs ih =>
    by_cases hxo : x = o
    · subst hxo
      rw [replaceFirst, if_pos rfl, replaceFirst, if_pos rfl]
    · have hxn : x ≠ n := fun hxn => hn (by rw [← hxn]; exact List.mem_cons_self x xs)
      rw [replaceFirst, if_neg hxo, replaceFirst, if_neg hxn]
      rw [ih (fun h => hn (List.mem_cons_of_mem x h))]

theorem set_getElem?_self (l : List PPath) (i : Nat) (a : PPath) (h : l[i]? = some a) :
    l.set i a = l := by
  induction l generalizing i with
  | nil => simp at h
  | cons x xs ih =>
    cases i with
    | zero =>
      simp only [List.getElem?_cons_zero, Option.some.injEq] at h
      rw [← h]
      rfl
    | succ j =>
      simp only [List.getElem?_cons_succ] at h
      show x :: xs.set j a = x :: xs
      rw [ih j h]

theorem insertIdx_eraseIdx (l : List PPath) (i : Nat) (a : PPath) (h : l[i]? = some a) :
    (l.eraseIdx i).insertIdx i a = l := by
  induction l generalizing i with
  | nil => simp at h
  | cons x xs ih =>
    cases i with
    | zero =>
      simp only [List.getElem?_cons_zero, Option.some.injEq] at h
      rw [← h]
      rfl
    | succ j =>
      simp only [List.getElem?_cons_succ] at h
      show (x :: xs.eraseIdx j).insertIdx (j + 1) a = x :: xs
      rw [List.insertIdx_succ_cons, ih j h]

theorem fsMove_roundtrip (fs fs1 fs2 : Fs) (src dst : PPath)
    (hsrc : src ∈ fs) (hdst : dst ∉ fs)
    (h1 : fsMove fs src dst = some fs1) (h2 : fsMove fs1 dst src = some fs2) :
    SameFs fs2 fs := by
  intro p
  rw [mem_fsMove fs1 fs2 dst src p h2, mem_fsMove fs fs1 src dst p h1]
  constructor
  · rintro (rfl | ⟨rfl | ⟨hp, hps, hpd⟩, hpd', hps'⟩)
    · exact hsrc
    · exact absurd rfl hpd'
    · exact hp
  · intro hp
    by_cases hps : p = src
    · left; exact hps
    · right
      have hpd : p ≠ dst := fun hcontra => hdst (hcontra ▸ hp)
      exact ⟨Or.inr ⟨hp, hps, hpd⟩, hpd, hps⟩

/-- Round trip of a successful in-place rename followed immediately by undo:
everything — view, catalog, cursor, stack, filter flag, filesystem — is
restored exactly. -/
theorem rename_undo_roundtrip (s : ViewerState) (n : String) (img : PPath)
    (hg : s.image_files[s.current_index]? = some img)
    (hex : fsHas s.fs ⟨img.dir, renamedName n img⟩ = false)
    (himgfs : img ∈ s.fs)
    (hallfs : ∀ p ∈ s.all_image_files, p ∈ s.fs) :
    (rename_current_file s n).2 = OpOutcome.ok ∧
    (undo_last_action (rename_current_file s n).1).2 = OpOutcome.ok ∧
    (undo_last_action (rename_current_file s n).1).1.image_files = s.image_files ∧
    (undo_last_action (rename_current_file s n).1).1.all_image_files
        = s.all_image_files ∧
    (undo_last_action (rename_current_file s n).1).1.current_index
        = s.current_index ∧
    (undo_last_action (rename_current_file s n).1).1.undo_stack = s.undo_stack ∧
    (undo_last_action (rename_current_file s n).1).1.is_search_filtered
        = s.is_search_filtered ∧
    SameFs (undo_last_action (rename_current_file s n).1).1.fs s.fs := by
  have hci : s.current_index < s.image_files.length := (List.getElem?_eq_some.mp hg).1
  have hnewfs : (⟨img.dir, renamedName n img⟩ : PPath) ∉ s.fs :=
    (fsHas_false_iff _ _).mp hex
  have hnewall : (⟨img.dir, renamedName n img⟩ : PPath) ∉ s.all_image_files :=
    fun hmem => hnewfs (hallfs _ hmem)
  have hmv := fsMove_some s.fs img ⟨img.dir, renamedName n img⟩ himgfs
  have hren := rename_eq_ok s n img _ hg hex hmv
  have h2 : (rename_current_file s n).2 = OpOutcome.ok := by rw [hren]
  have hS1img : (rename_current_file s n).1.image_files
      = s.image_files.set s.current_index ⟨img.dir, renamedName n img⟩ := by
    rw [hren]; exact update_image_image_files _
  have hS1all : (rename_current_file s n).1.all_image_files
      = replaceFirst s.all_image_files img ⟨img.dir, renamedName n img⟩ := by
    rw [hren]; exact update_image_all _
  have hS1stack : (rename_current_file s n).1.undo_stack
      = (⟨.rename_inplace, img, ⟨img.dir, renamedName n img⟩, s.current_index⟩ : UndoEntry)
          :: s.undo_stack := by
    rw [hren]; exact update_image_stack _
  have hS1fs : (rename_current_file s n).1.fs
      = ⟨img.dir, renamedName n img⟩ ::
          s.fs.filter (fun p => p != img && p != ⟨img.dir, renamedName n img⟩) := by
    rw [hren]; exact update_image_fs _
  have hS1filt : (rename_current_file s n).1.is_search_filtered = s.is_search_filtered := by
    rw [hren]; exact update_image_filtered _
  have hS1ci : (rename_current_file s n).1.current_index = s.current_index := by
    rw [hren, update_image_of_nonempty _ (by
      refine List.length_pos.mp ?_
      show 0 < (s.image_files.set s.current_index _).length
      rw [List.length_set]
      omega)]
    show min s.current_index
        ((s.image_files.set s.current_index ⟨img.dir, renamedName n img⟩).length - 1)
      = s.current_index
    rw [List.length_set]
    omega
  have hmv2 : fsMove (rename_current_file s n).1.fs ⟨img.dir, renamedName n img⟩ img
      = some (img ::
          (⟨img.dir, renamedName n img⟩ ::
            s.fs.filter (fun p => p != img && p != ⟨img.dir, renamedName n img⟩)).filter
            (fun p => p != ⟨img.dir, renamedName n img⟩ && p != img)) := by
    rw [hS1fs]
    exact fsMove_some _ _ _ (List.mem_cons_self _ _)
  have hidx2 : (⟨.rename_inplace, img, ⟨img.dir, renamedName n img⟩,
      s.current_index⟩ : UndoEntry).index < (rename_current_file s n).1.image_files.length := by
    rw [hS1img, List.length_set]
    exact hci
  have hundo := undo_eq_rename_ok (rename_current_file s n).1
    ⟨.rename_inplace, img, ⟨img.dir, renamedName n img⟩, s.current_index⟩
    s.undo_stack _ hS1stack rfl hmv2 hidx2
  have himg2 : (rename_current_file s n).1.image_files.set s.current_index img
      = s.image_files := by
    rw [hS1img, List.set_set]
    exact set_getElem?_self _ _ _ hg
  have hne2 : (rename_current_file s n).1.image_files.set s.current_index img ≠ [] := by
    rw [himg2]
    rintro hnil
    rw [hnil] at hg
    simp at hg
  refine ⟨h2, ?_, ?_, ?_, ?_, ?_, ?_, ?_⟩
  · rw [hundo]
  · rw [hundo, update_image_image_files]
    exact himg2
  · rw [hundo, update_image_all]
    show replaceFirst (rename_current_file s n).1.all_image_files
      ⟨img.dir, renamedName n img⟩ img = s.all_image_files
    rw [hS1all]
    exact replaceFirst_replaceFirst _ _ _ hnewall
  · rw [hundo, update_image_of_nonempty _ (by simpa using hne2)]
    show min (rename_current_file s n).1.current_index
        (((rename_current_file s n).1.image_files.set s.current_index img).length - 1)
      = s.current_index
    rw [himg2, hS1ci]
    omega
  · rw [hundo, update_image_stack]
  · rw [hundo, update_image_filtered]
    exact hS1filt
  · rw [hundo, update_image_fs]
    show SameFs (img ::
        (⟨img.dir, renamedName n img⟩ ::
          s.fs.filter (fun p => p != img && p != ⟨img.dir, renamedName n img⟩)).filter
          (fun p => p != ⟨img.dir, renamedName n img⟩ && p != img)) s.fs
    refine fsMove_roundtrip s.fs _ _ img ⟨img.dir, renamedName n img⟩ himgfs hnewfs hmv ?_
    exact fsMove_some _ _ _ (List.mem_cons_self _ _)

/-- Round trip of a successful move or delete followed immediately by undo:
view, cursor, stack, filter flag and filesystem are restored exactly; the
catalog is restored as a set, with the removed path re-appended at the end. -/
theorem removal_undo_roundtrip (s : ViewerState) (img dst : PPath) (tag : UndoAction)
    (htag : tag = .move ∨ tag = .delete)
    (hg : s.image_files[s.current_index]? = some img)
    (hnodup : s.all_image_files.Nodup)
    (himgfs : img ∈ s.fs)
    (hdst : dst ∉ s.fs) :
    (undo_last_action (remove_item_from_view
        { s with fs := dst :: s.fs.filter (fun p => p != img && p != dst),
                 undo_stack := ⟨tag, img, dst, s.current_index⟩ :: s.undo_stack }
        s.current_index)).2 = OpOutcome.ok ∧
    (undo_last_action (remove_item_from_view
        { s with fs := dst :: s.fs.filter (fun p => p != img && p != dst),
                 undo_stack := ⟨tag, img, dst, s.current_index⟩ :: s.undo_stack }
        s.current_index)).1.image_files = s.image_files ∧
    (undo_last_action (remove_item_from_view
        { s with fs := dst :: s.fs.filter (fun p => p != img && p != dst),
                 undo_stack := ⟨tag, img, dst, s.current_index⟩ :: s.undo_stack }
        s.current_index)).1.all_image_files = s.all_image_files.erase img ++ [img] ∧
    (undo_last_action (remove_item_from_view
        { s with fs := dst :: s.fs.filter (fun p => p != img && p != dst),
                 undo_stack := ⟨tag, img, dst, s.current_index⟩ :: s.undo_stack }
        s.current_index)).1.current_index = s.current_index ∧
    (undo_last_action (remove_item_from_view
        { s with fs := dst :: s.fs.filter (fun p => p != img && p != dst),
                 undo_stack := ⟨tag, img, dst, s.current_index⟩ :: s.undo_stack }
        s.current_index)).1.undo_stack = s.undo_stack ∧
    (undo_last_action (remove_item_from_view
        { s with fs := dst :: s.fs.filter (fun p => p != img && p != dst),
                 undo_stack := ⟨tag, img, dst, s.current_index⟩ :: s.undo_stack }
        s.current_index)).1.is_search_filtered = s.is_search_filtered ∧
    SameFs (undo_last_action (remove_item_from_view
        { s with fs := dst :: s.fs.filter (fun p => p != img && p != dst),
                 undo_stack := ⟨tag, img, dst, s.current_index⟩ :: s.undo_stack }
        s.current_index)).1.fs s.fs := by
  have hci : s.current_index < s.image_files.length := (List.getElem?_eq_some.mp hg).1
  have hmv := fsMove_some s.fs img dst himgfs
  have hrem := remove_eq_some
    { s with fs := dst :: s.fs.filter (fun p => p != img && p != dst),
             undo_stack := ⟨tag, img, dst, s.current_index⟩ :: s.undo_stack }
    s.current_index img hg
  rw [hrem]
  have hS1img : (update_image
      { s with fs := dst :: s.fs.filter (fun p => p != img && p != dst),
               undo_stack := ⟨tag, img, dst, s.current_index⟩ :: s.undo_stack,
               image_files := s.image_files.eraseIdx s.current_index,
               all_image_files := s.all_image_files.erase img }).image_files
      = s.image_files.eraseIdx s.current_index := update_image_image_files _
  have hS1all : (update_image
      { s with fs := dst :: s.fs.filter (fun p => p != img && p != dst),
               undo_stack := ⟨tag, img, dst, s.current_index⟩ :: s.undo_stack,
               image_files := s.image_files.eraseIdx s.current_index,
               all_image_files := s.all_image_files.erase img }).all_image_files
      = s.all_image_files.erase img := update_image_all _
  have hS1stack := update_image_stack
      { s with fs := dst :: s.fs.filter (fun p => p != img && p != dst),
               undo_stack := ⟨tag, img, dst, s.current_index⟩ :: s.undo_stack,
               image_files := s.image_files.eraseIdx s.current_index,
               all_image_files := s.all_image_files.erase img }
  have hS1fs := update_image_fs
      { s with fs := dst :: s.fs.filter (fun p => p != img && p != dst),
               undo_stack := ⟨tag, img, dst, s.current_index⟩ :: s.undo_stack,
               image_files := s.image_files.eraseIdx s.current_index,
               all_image_files := s.all_image_files.erase img }
  have hS1filt := update_image_filtered
      { s with fs := dst :: s.fs.filter (fun p => p != img && p != dst),
               undo_stack := ⟨tag, img, dst, s.current_index⟩ :: s.undo_stack,
               image_files := s.image_files.eraseIdx s.current_index,
               all_image_files := s.all_image_files.erase img }
  have hmv2 : fsMove (update_image
      { s with fs := dst :: s.fs.filter (fun p => p != img && p != dst),
               undo_stack := ⟨tag, img, dst, s.current_index⟩ :: s.undo_stack,
               image_files := s.image_files.eraseIdx s.current_index,
               all_image_files := s.all_image_files.erase img }).fs dst img
      = some (img ::
          (dst :: s.fs.filter (fun p => p != img && p != dst)).filter
            (fun p => p != dst && p != img)) := by
    rw [hS1fs]
    exact fsMove_some _ _ _ (List.mem_cons_self _ _)
  have hundo := undo_eq_restore_ok _ ⟨tag, img, dst, s.current_index⟩ s.undo_stack _
    hS1stack htag hmv2
  have hlen1 : (s.image_files.eraseIdx s.current_index).length
      = s.image_files.length - 1 := by
    rw [List.length_eraseIdx, if_pos hci]
  have himg2 : (update_image
      { s with fs := dst :: s.fs.filter (fun p => p != img && p != dst),
               undo_stack := ⟨tag, img, dst, s.current_index⟩ :: s.undo_stack,
               image_files := s.image_files.eraseIdx s.current_index,
               all_image_files := s.all_image_files.erase img }).image_files.insertIdx
        (min (⟨tag, img, dst, s.current_index⟩ : UndoEntry).index
          (update_image
            { s with fs := dst :: s.fs.filter (fun p => p != img && p != dst),
                     undo_stack := ⟨tag, img, dst, s.current_index⟩ :: s.undo_stack,
                     image_files := s.image_files.eraseIdx s.current_index,
                     all_image_files := s.all_image_files.erase img }).image_files.length)
        img = s.image_files := by
    rw [hS1img, hlen1]
    show (s.image_files.eraseIdx s.current_index).insertIdx
        (min s.current_index (s.image_files.length - 1)) img = s.image_files
    rw [Nat.min_eq_left (by omega)]
    exact insertIdx_eraseIdx _ _ _ hg
  have hall2 : (if img ∈ (update_image
      { s with fs := dst :: s.fs.filter (fun p => p != img && p != dst),
               undo_stack := ⟨tag, img, dst, s.current_index⟩ :: s.undo_stack,
               image_files := s.image_files.eraseIdx s.current_index,
               all_image_files := s.all_image_files.erase img }).all_image_files
      then (update_image
      { s with fs := dst :: s.fs.filter (fun p => p != img && p != dst),
               undo_stack := ⟨tag, img, dst, s.current_index⟩ :: s.undo_stack,
               image_files := s.image_files.eraseIdx s.current_index,
               all_image_files := s.all_image_files.erase img }).all_image_files
      else (update_image
      { s with fs := dst :: s.fs.filter (fun p => p != img && p != dst),
               undo_stack := ⟨tag, img, dst, s.current_index⟩ :: s.undo_stack,
               image_files := s.image_files.eraseIdx s.current_index,
               all_image_files := s.all_image_files.erase img }).all_image_files ++ [img])
      = s.all_image_files.erase img ++ [img] := by
    rw [hS1all]
    rw [if_neg (fun hmem => by
      have := (hnodup.mem_erase_iff).mp hmem
      exact this.1 rfl)]
  rw [hundo]
  have hne2 : (update_image
      { s with fs := dst :: s.fs.filter (fun p => p != img && p != dst),
               undo_stack := ⟨tag, img, dst, s.current_index⟩ :: s.undo_stack,
               image_files := s.image_files.eraseIdx s.current_index,
               all_image_files := s.all_image_files.erase img }).image_files.insertIdx
        (min (⟨tag, img, dst, s.current_index⟩ : UndoEntry).index
          (update_image
            { s with fs := dst :: s.fs.filter (fun p => p != img && p != dst),
                     undo_stack := ⟨tag, img, dst, s.current_index⟩ :: s.undo_stack,
                     image_files := s.image_files.eraseIdx s.current_index,
                     all_image_files := s.all_image_files.erase img }).image_files.length)
        img ≠ [] := by
    rw [himg2]
    rintro hnil
    rw [hnil] at hg
    simp at hg
  refine ⟨rfl, ?_, ?_, ?_, ?_, ?_, ?_⟩
  · rw [update_image_image_files]
    exact himg2
  · rw [update_image_all]
    exact hall2
  · refine Eq.trans (update_image_ci_eq _ ?_ ?_) rfl
    · dsimp only
      exact hne2
    · dsimp only
      rw [himg2]
      exact hci
  · rw [update_image_stack]
  · rw [update_image_filtered]
    exact hS1filt
  · rw [update_image_fs]
    exact fsMove_roundtrip s.fs _ _ img dst himgfs hdst hmv
      (fsMove_some _ _ _ (List.mem_cons_self _ _))

/-- C1 (amended): a successful rename followed immediately by undo restores
view, catalog, cursor, undo stack, filter flag and filesystem exactly. A
successful move or delete followed immediately by undo restores view, cursor,
stack, filter flag and filesystem exactly, and restores the catalog only as a
set: the restored path is re-appended at the end of `all_images` rather than
re-inserted at its original position, so the original order returns only when
that path was the last entry. -/
theorem c1_mutation_undo_roundtrip :
    (∀ s n img,
      s.image_files[s.current_index]? = some img →
      fsHas s.fs ⟨img.dir, renamedName n img⟩ = false →
      img ∈ s.fs → (∀ p ∈ s.all_image_files, p ∈ s.fs) →
      (rename_current_file s n).2 = OpOutcome.ok ∧
      (undo_last_action (rename_current_file s n).1).2 = OpOutcome.ok ∧
      (undo_last_action (rename_current_file s n).1).1.image_files = s.image_files ∧
      (undo_last_action (rename_current_file s n).1).1.all_image_files
          = s.all_image_files ∧
      (undo_last_action (rename_current_file s n).1).1.current_index
          = s.current_index ∧
      (undo_last_action (rename_current_file s n).1).1.undo_stack = s.undo_stack ∧
      (undo_last_action (rename_current_file s n).1).1.is_search_filtered
          = s.is_search_filtered ∧
      SameFs (undo_last_action (rename_current_file s n).1).1.fs s.fs) ∧
    (∀ s target img,
      s.image_files[s.current_index]? = some img →
      s.all_image_files.Nodup → img ∈ s.fs →
      (move_to_target s target).2 = OpOutcome.ok ∧
      (undo_last_action (move_to_target s target).1).2 = OpOutcome.ok ∧
      (undo_last_action (move_to_target s target).1).1.image_files
          = s.image_files ∧
      (undo_last_action (move_to_target s target).1).1.all_image_files
          = s.all_image_files.erase img ++ [img] ∧
      (undo_last_action (move_to_target s target).1).1.current_index
          = s.current_index ∧
      (undo_last_action (move_to_target s target).1).1.undo_stack = s.undo_stack ∧
      (undo_last_action (move_to_target s target).1).1.is_search_filtered
          = s.is_search_filtered ∧
      SameFs (undo_last_action (move_to_target s target).1).1.fs s.fs) ∧
    (∀ s img,
      s.image_files[s.current_index]? = some img →
      s.all_image_files.Nodup → img ∈ s.fs →
      (delete_current s).2 = OpOutcome.ok ∧
      (undo_last_action (delete_current s).1).2 = OpOutcome.ok ∧
      (undo_last_action (delete_current s).1).1.image_files = s.image_files ∧
      (undo_last_action (delete_current s).1).1.all_image_files
          = s.all_image_files.erase img ++ [img] ∧
      (undo_last_action (delete_current s).1).1.current_index = s.current_index ∧
      (undo_last_action (delete_current s).1).1.undo_stack = s.undo_stack ∧
      (undo_last_action (delete_current s).1).1.is_search_filtered
          = s.is_search_filtered ∧
      SameFs (undo_last_action (delete_current s).1).1.fs s.fs) := by
  refine ⟨?_, ?_, ?_⟩
  · intro s n img hg hex himgfs hallfs
    exact rename_undo_roundtrip s n img hg hex himgfs hallfs
  · intro s target img hg hnodup himgfs
    have hdst : resolveCollision s.fs target img.name ∉ s.fs :=
      (fsHas_false_iff _ _).mp (resolveCollision_free _ _ _)
    have hmv := fsMove_some s.fs img (resolveCollision s.fs target img.name) himgfs
    have hmove := move_eq_ok s target img _ hg hmv
    have hcore := removal_undo_roundtrip s img (resolveCollision s.fs target img.name)
      .move (Or.inl rfl) hg hnodup himgfs hdst
    rw [hmove]
    exact ⟨rfl, hcore⟩
  · intro s img hg hnodup himgfs
    have hdst : resolveCollision s.fs s.trash_dir img.name ∉ s.fs :=
      (fsHas_false_iff _ _).mp (resolveCollision_free _ _ _)
    have hmv := fsMove_some s.fs img (resolveCollision s.fs s.trash_dir img.name) himgfs
    have hdel := delete_eq_ok s img _ hg hmv
    have hcore := removal_undo_roundtrip s img (resolveCollision s.fs s.trash_dir img.name)
      .delete (Or.inr rfl) hg hnodup himgfs hdst
    rw [hdel]
    exact ⟨rfl, hcore⟩

/-- A two-image catalog about to move its first image into folder `t`. -/
def c1state : ViewerState :=
  { all_image_files := [⟨"d", "a.png"⟩, ⟨"d", "b.png"⟩],
    image_files := [⟨"d", "a.png"⟩, ⟨"d", "b.png"⟩],
    current_index := 0,
    undo_stack := [],
    is_search_filtered := false,
    pre_search_path := none,
    trash_dir := "d/.vimview_trash",
    fs := [⟨"d", "a.png"⟩, ⟨"d", "b.png"⟩] }

/-- C1 fails as stated: moving `a.png` away and undoing immediately restores
the view but appends the path at the end of `all_images`, which becomes
`[b.png, a.png]` instead of the original `[a.png, b.png]`. -/
theorem c1_counterexample :
    (move_to_target c1state "t").2 = OpOutcome.ok ∧
    (undo_last_action (move_to_target c1state "t").1).2 = OpOutcome.ok ∧
    (undo_last_action (move_to_target c1state "t").1).1.all_image_files
        = [⟨"d", "b.png"⟩, ⟨"d", "a.png"⟩] ∧
    (undo_last_action (move_to_target c1state "t").1).1.all_image_files
        ≠ c1state.all_image_files := by decide

/-- Witness for the amended C1 at the concrete move-and-undo. -/
theorem c1_mutation_undo_roundtrip_witness :
    (move_to_target c1state "t").2 = OpOutcome.ok ∧
    (undo_last_action (move_to_target c1state "t").1).2 = OpOutcome.ok ∧
    (undo_last_action (move_to_target c1state "t").1).1.image_files
        = c1state.image_files ∧
    (undo_last_action (move_to_target c1state "t").1).1.all_image_files
        = c1state.all_image_files.erase ⟨"d", "a.png"⟩ ++ [⟨"d", "a.png"⟩] ∧
    (undo_last_action (move_to_target c1state "t").1).1.current_index
        = c1state.current_index ∧
    (undo_last_action (move_to_target c1state "t").1).1.undo_stack
        = c1state.undo_stack ∧
    (undo_last_action (move_to_target c1state "t").1).1.is_search_filtered
        = c1state.is_search_filtered ∧
    SameFs (undo_last_action (move_to_target c1state "t").1).1.fs c1state.fs :=
  c1_mutation_undo_roundtrip.2.1 c1state "t" ⟨"d", "a.png"⟩
    (by decide) (by decide) (by decide)

/-! ### Claim C10 -/

/-- C10: restarting the pipeline re-keys the filmstrip map by the new view and
hands the new worker a snapshot of exactly that list, the previous worker's
undelivered queue being discarded by the stop-and-join; a worker only ever
emits paths of its own snapshot; an event whose path is no longer a filmstrip
key is ignored entirely — no icon applied, no cache entry added or
resurrected; and delivered events never duplicate a cache key. -/
theorem c10_pipeline_event_hygiene :
    (∀ view t, (rebuild_pipeline view t).1.item_map = view ∧
      (rebuild_pipeline view t).2 = view ∧
      (rebuild_pipeline view t).1.thumb_cache = t.thumb_cache) ∧
    (∀ snapshot k decodeOk p, p ∈ worker_emits snapshot k decodeOk → p ∈ snapshot) ∧
    (∀ t p pix, p ∉ t.item_map → apply_thumbnail t p pix = t) ∧
    (∀ t p pix, (t.thumb_cache.map Prod.fst).Nodup →
      ((apply_thumbnail t p pix).thumb_cache.map Prod.fst).Nodup) := by
  refine ⟨?_, ?_, ?_, ?_⟩
  · intro view t
    exact ⟨rfl, rfl, rfl⟩
  · intro snapshot k decodeOk p hp
    exact List.take_subset _ _ (List.mem_of_mem_filter hp)
  · intro t p pix hp
    unfold apply_thumbnail
    rw [if_neg hp]
  · intro t p pix hnodup
    unfold apply_thumbnail
    split
    · unfold cacheSet
      split
      · next hany =>
        have hkeys : (t.thumb_cache.map
              (fun kv => if kv.1 == p then (p, pix) else kv)).map Prod.fst
            = t.thumb_cache.map Prod.fst := by
          rw [List.map_map]
          refine List.map_congr_left ?_
          intro kv _
          show (if kv.1 == p then (p, pix) else kv).1 = kv.1
          split
          · next hbeq => exact (eq_of_beq hbeq).symm
          · rfl
        show ((t.thumb_cache.map
            (fun kv => if kv.1 == p then (p, pix) else kv)).map Prod.fst).Nodup
        rw [hkeys]
        exact hnodup
      · next hany =>
        have hpnot : p ∉ t.thumb_cache.map Prod.fst := by
          intro hmem
          obtain ⟨kv, hkv, hfst⟩ := List.mem_map.mp hmem
          exact hany (List.any_eq_true.mpr ⟨kv, hkv, by simp [hfst]⟩)
        show ((t.thumb_cache ++ [(p, pix)]).map Prod.fst).Nodup
        rw [List.map_append]
        simp only [List.map_cons, List.map_nil]
        rw [List.nodup_append]
        refine ⟨hnodup, List.nodup_singleton p, ?_⟩
        intro a ha hb
        simp only [List.mem_singleton] at hb
        exact hpnot (hb ▸ ha)
    · exact hnodup

/-- A concrete foreground state for the C10 witness: one filmstrip key, one
cached preview, and an event for a path no longer present. -/
def c10state : ThumbState :=
  { item_map := [⟨"d", "a.png"⟩],
    thumb_cache := [(⟨"d", "old.png"⟩, 7)] }

/-- Witness for C10: an event for a removed path is dropped entirely. -/
theorem c10_pipeline_event_hygiene_witness :
    apply_thumbnail c10state ⟨"d", "gone.png"⟩ 3 = c10state :=
  c10_pipeline_event_hygiene.2.2.1 c10state ⟨"d", "gone.png"⟩ 3 (by decide)

